import Mathlib

/-
Verification of the accessibility-tree capture engine of the screenenv
repository. The definitions below are shallow embeddings of the traversal
code in src/docker/desktop/ubuntu_xfce4/server.py (class UbuntuXfce4Server,
method _create_atspi_node and get_accessibility_tree; the copy in
src/docker/desktop/server.py is line for line the same algorithm) and of
src/docker/desktop/server.py (method _create_pywinauto_node for Windows and
the role-tag computation of _create_axui_node for macOS).

Modelling conventions, used consistently below:
- A native accessibility object is modelled by ANode (AT-SPI, Linux) or
  WNode (pywinauto, Windows). Handle identity (the key the Windows visited
  set uses, and the identity the spec speaks about) is a Nat field.
- Optional native interfaces (text, image, selection, value, action,
  component) raise NotImplementedError in pyatspi when absent; the
  try/except around each query is embedded by giving the node an Option
  (or Bool) field, none/false meaning the query raises and the except
  branch runs.
- A hard native failure while describing a node (for example node.name
  raising) is modelled by the flag broken; the traversal functions return
  Except Unit, error meaning the Python call raised.
- State names: the source turns the enum name STATE_VISIBLE into visible
  by split and lower; ANode.states holds the already split-and-lowered
  names, and the emitted attribute name is the state name itself, exactly
  as in the source.
- lxml attribute keys use Clark notation: a left brace, the namespace URI,
  a right brace, then the local name. We build exactly those strings.
- The thread pools: get_accessibility_tree and _create_pywinauto_node
  gather futures with concurrent.futures.as_completed, so children are
  appended in completion order. The completion order is an explicit input
  (a list of future indices); each legal schedule is one value of it.
  The Windows visited set is threaded through the children sequentially in
  completion order, one legal linearization of the shared-set mutation.
- Machine integers do not overflow here (Python ints); Nat and Int are
  used directly.
-/

namespace ScreenEnv

/-! ## Namespace URIs (the _accessibility_ns_map tables of the source) -/

def uStateNS : String := "https://accessibility.ubuntu.example.org/ns/state"

def uAttrNS : String := "https://accessibility.ubuntu.example.org/ns/attributes"

def uCompNS : String := "https://accessibility.ubuntu.example.org/ns/component"

def uValNS : String := "https://accessibility.ubuntu.example.org/ns/value"

def uActNS : String := "https://accessibility.ubuntu.example.org/ns/action"

def wStateNS : String := "https://accessibility.windows.example.org/ns/state"

def wCompNS : String := "https://accessibility.windows.example.org/ns/component"

def wValNS : String := "https://accessibility.windows.example.org/ns/value"

def wClassNS : String := "https://accessibility.windows.example.org/ns/class"

/-- Clark notation for a namespaced lxml attribute key, as produced by the
format strings of the source: left brace, URI, right brace, local name. -/
def clark (uri local_ : String) : String := "\x7b" ++ uri ++ "\x7d" ++ local_

/-! ## Python string primitives, at character level.
The source uses str.strip, str.replace with a one-character pattern,
and str.lower; they are embedded directly on the character list (the
roles, class names and states involved are ASCII). -/

/-- Python str.strip(): drop whitespace from both ends. -/
def pyStrip (s : String) : String :=
  String.mk (((s.data.dropWhile Char.isWhitespace).reverse.dropWhile
    Char.isWhitespace).reverse)

/-- Python str.replace(c, d) for a one-character pattern and a
one-character replacement. -/
def mapReplace (c d : Char) (s : String) : String :=
  String.mk (s.data.map (fun x => if x = c then d else x))

/-- Python str.replace(c, "") for a one-character pattern: delete every
occurrence. -/
def removeChar (c : Char) (s : String) : String :=
  String.mk (s.data.filter (fun x => x != c))

/-- Python str.lower() (ASCII). -/
def pyLower (s : String) : String :=
  String.mk (s.data.map Char.toLower)

/-! ## Server configuration (UbuntuXfce4Server.__init__ lines 70-73) -/

structure Config where
  MAX_DEPTH : Nat := 50
  MAX_WIDTH : Nat := 1024
  MAX_CALLS : Nat := 5000
  libreofficeVersion : Nat × Nat := (7, 4)

/-- Python tuple comparison libreoffice_version_tuple < (7, 4), restricted
to the two components the threshold uses. -/
def verLt (a b : Nat × Nat) : Bool := a.1 < b.1 || (a.1 = b.1 && a.2 < b.2)

/-! ## The emitted tree (lxml _Element, as far as the traversal builds it).
The srcHandle field is ghost provenance: the handle of the native node the
element was created from, used only to state the visited-at-most-once
properties. -/

inductive Element where
  | mk (tag : String) (attrs : List (String × String)) (body : String)
       (srcHandle : Nat) (children : List Element)

def Element.tag : Element → String
  | .mk t _ _ _ _ => t

def Element.attrs : Element → List (String × String)
  | .mk _ a _ _ _ => a

def Element.body : Element → String
  | .mk _ _ b _ _ => b

def Element.srcHandle : Element → Nat
  | .mk _ _ _ h _ => h

def Element.children : Element → List Element
  | .mk _ _ _ _ c => c

def Element.withChildren : Element → List Element → Element
  | .mk t a b h _, c => .mk t a b h c

mutual

/-- All source handles occurring in an emitted tree, root first. -/
def elemHandles : Element → List Nat
  | .mk _ _ _ h cs => h :: elemHandlesL cs

/-- All source handles occurring in a forest of emitted trees. -/
def elemHandlesL : List Element → List Nat
  | [] => []
  | e :: es => elemHandles e ++ elemHandlesL es

end

mutual

/-- Height of an emitted tree counted in edges: a childless element has
height 0. -/
def elemHeight : Element → Nat
  | .mk _ _ _ _ cs => elemHeightL cs

/-- One more than the largest height of a tree in the forest, 0 for the
empty forest. -/
def elemHeightL : List Element → Nat
  | [] => 0
  | e :: es => max (elemHeight e + 1) (elemHeightL es)

end

/-- Python dict lookup on our insertion-ordered association list
(first match; the builders never insert one key twice with distinct
values, see the namespace-disjointness lemmas below). -/
def lookupAttr (l : List (String × String)) (k : String) : Option String :=
  (l.find? (fun p => p.1 = k)).map (fun p => p.2)

/-! ## The AT-SPI node model (Linux).
ADesc is everything the describe phase of _create_atspi_node reads;
children are an indexed collection: childAt i embeds the pyatspi indexed
access node[i] and the iteration enumerate(node) walks indices
0 .. childCount - 1. Indices at or past childCount raise IndexError in
Python; the traversal embedding checks the bound wherever the source
performs an access that may be out of range. -/

structure AValue where
  current : Option String := none
  min : Option String := none
  max : Option String := none
  step : Option String := none

structure AAction where
  name : String
  desc : String
  kb : String

structure ADesc where
  handle : Nat
  name : String := ""
  roleName : String := ""
  states : List String := []
  attributes : List (String × String) := []
  extents : Option (Int × Int × Int × Int) := none
  text : Option String := none
  image : Bool := false
  selection : Bool := false
  value : Option AValue := none
  actions : Option (List AAction) := none
  broken : Bool := false

inductive ANode where
  | leaf (desc : ADesc)
  | mk (desc : ADesc) (childCount : Nat) (childAt : Nat → ANode)

def ANode.desc : ANode → ADesc
  | .leaf d => d
  | .mk d _ _ => d

def ANode.childCount : ANode → Nat
  | .leaf _ => 0
  | .mk _ n _ => n

/-- Indexed child access, the pyatspi node[i]; a leaf has childCount 0 so
its childAt is never consulted at a valid index. -/
def ANode.childAt : ANode → Nat → ANode
  | .leaf d, _ => .leaf d
  | .mk _ _ f, i => f i

/-- The children in native enumeration order, as enumerate(node) yields
them. -/
def nativeChildren (n : ANode) : List ANode :=
  (List.range n.childCount).map n.childAt

/-! ## The describe phase of _create_atspi_node (lines 295-427) -/

/-- States block: one st-namespaced attribute per nonempty state name,
value "true". -/
def stateAttrs (states : List String) : List (String × String) :=
  (states.filter (fun s => s.length != 0)).map (fun s => (clark uStateNS s, "true"))

/-- Attributes block: node.get_attributes(), empty names skipped, keys in
the attr namespace. -/
def rawAttrs (attrs : List (String × String)) : List (String × String) :=
  (attrs.filter (fun p => p.1.length != 0)).map (fun p => (clark uAttrNS p.1, p.2))

/-- Component block: geometry is queried only when the visible and showing
state attributes are both "true" in the dict built so far; queryComponent
raising NotImplementedError (extents = none) adds nothing. The two
attributes are str(tuple(bbox[0:2])) and str(tuple(bbox[2:])). -/
def componentAttrs (extents : Option (Int × Int × Int × Int))
    (dictSoFar : List (String × String)) : List (String × String) :=
  if (lookupAttr dictSoFar (clark uStateNS "visible")).getD "false" = "true" ∧
     (lookupAttr dictSoFar (clark uStateNS "showing")).getD "false" = "true" then
    match extents with
    | none => []
    | some (x, y, w, h) =>
        [(clark uCompNS "screencoord", "(" ++ toString x ++ ", " ++ toString y ++ ")"),
         (clark uCompNS "size", "(" ++ toString w ++ ", " ++ toString h ++ ")")]
  else []

/-- Text block: absent interface leaves text empty; otherwise the object
replacement characters uFFFC and uFFFD are stripped. -/
def textOf (t : Option String) : String :=
  match t with
  | none => ""
  | some s => removeChar (Char.ofNat 0xFFFD) (removeChar (Char.ofNat 0xFFFC) s)

def imageAttrs (b : Bool) : List (String × String) :=
  if b then [("image", "true")] else []

def selectionAttrs (b : Bool) : List (String × String) :=
  if b then [("selection", "true")] else []

/-- Value block: the four accessors value, min, max, step are each tried
individually; a per-accessor failure (field none) only skips that entry. -/
def valueAttrs : Option AValue → List (String × String)
  | none => []
  | some v =>
      (match v.current with | some s => [(clark uValNS "value", s)] | none => []) ++
      (match v.min with | some s => [(clark uValNS "min", s)] | none => []) ++
      (match v.max with | some s => [(clark uValNS "max", s)] | none => []) ++
      (match v.step with | some s => [(clark uValNS "step", s)] | none => [])

def actionAttrsL : List AAction → List (String × String)
  | [] => []
  | a :: rest =>
      (clark uActNS ((mapReplace ' ' '-' a.name) ++ "_desc"), a.desc)
      :: (clark uActNS ((mapReplace ' ' '-' a.name) ++ "_kb"), a.kb)
      :: actionAttrsL rest

/-- Action block: per action, name with spaces hyphenated, then the _desc
and _kb attributes. -/
def actionAttrs : Option (List AAction) → List (String × String)
  | none => []
  | some acts => actionAttrsL acts

/-- The dict before the component block: name, states, attributes. -/
def atspiDict0 (d : ADesc) : List (String × String) :=
  ("name", d.name) :: stateAttrs d.states ++ rawAttrs d.attributes

/-- The complete attribute dict of _create_atspi_node in insertion
order. -/
def atspiAttrs (d : ADesc) : List (String × String) :=
  atspiDict0 d ++ componentAttrs d.extents (atspiDict0 d) ++
  imageAttrs d.image ++ selectionAttrs d.selection ++
  valueAttrs d.value ++ actionAttrs d.actions

/-- Tag sanitization of _create_atspi_node lines 411-412: strip, fall back
to unknown when empty, then replace spaces by hyphens. -/
def atspiRoleTag (roleName : String) : String :=
  mapReplace ' ' '-' (if pyStrip roleName = "" then "unknown" else pyStrip roleName)

/-- Flag propagation (lines 414-418): set only when no flag is inherited;
a document spreadsheet sets calc, the Thunderbird application sets
thunderbird. -/
def updateFlag (flag : Option String) (rawRole nodeName : String) : Option String :=
  match flag with
  | some f => some f
  | none =>
      if rawRole = "application" ∧ nodeName = "Thunderbird" then some "thunderbird"
      else if rawRole = "document spreadsheet" then some "calc" else none

/-- The element _create_atspi_node builds before attaching children. -/
def atspiBase (d : ADesc) : Element :=
  .mk (atspiRoleTag d.roleName) (atspiAttrs d) (textOf d.text) d.handle []

/-! ## The spreadsheet paginator (the calc branch, lines 433-468).
The loop state carries the Python locals first_showing and column_base,
the appended cell elements, and two ghost counters (cellChecks, maxCol)
that record how many cells were examined and the largest column index
examined; the ghost fields are never read by the traversal. -/

structure GridState where
  firstShowing : Bool := false
  columnBase : Option Nat := none
  cells : List Element := []
  cellChecks : Nat := 0
  maxCol : Nat := 0

/-- The ghost bookkeeping done for every examined cell: one more
existence check, and the column index joins the scanned range. -/
def stepCheck (st : GridState) (clm : Nat) : GridState :=
  { st with cellChecks := st.cellChecks + 1, maxCol := max st.maxCol clm }

/-- The state update for a showing cell: record the first showing column
as columnBase, then append the expanded cell element. -/
def stepShowing (st : GridState) (clm : Nat) (cellElem : Element) : GridState :=
  if st.firstShowing then { st with cells := st.cells ++ [cellElem] }
  else { st with columnBase := some clm, firstShowing := true,
                 cells := st.cells ++ [cellElem] }

/-- The inner column loop, for clm in range(start, MAXIMUN_COLUMN).
fuel is the number of remaining iterations, MAXIMUN_COLUMN - clm at every
call; when it hits 0 the range is exhausted and the loop variable keeps
its last value clm - 1. Returns the state and the final value of clm.
An access at or past childCount raises IndexError, which the calc branch
does not catch, and neither does it catch an error raised by the
recursive expansion of a showing cell. -/
def innerScan (recurse : ANode → Except Unit Element) (node : ANode)
    (indexBase : Nat) : Nat → Nat → GridState → Except Unit (GridState × Nat)
  | clm, 0, st => .ok (st, clm - 1)
  | clm, fuel + 1, st =>
      if indexBase + clm < node.childCount then
        if "showing" ∈ (node.childAt (indexBase + clm)).desc.states then
          match recurse (node.childAt (indexBase + clm)) with
          | .error e => .error e
          | .ok cellElem =>
              innerScan recurse node indexBase (clm + 1) fuel
                (stepShowing (stepCheck st clm) clm cellElem)
        else if (st.firstShowing ∧ st.columnBase ≠ none) ∨ clm ≥ 500 then
          .ok (stepCheck st clm, clm)
        else innerScan recurse node indexBase (clm + 1) fuel (stepCheck st clm)
      else .error ()

/-- The outer row loop, for r in range(MAX_ROW), with the break condition
of line 460-466; fuelRows is the count of remaining rows. -/
def rowScan (recurse : ANode → Except Unit Element) (node : ANode)
    (maxColumn : Nat) : Nat → Nat → Nat → GridState → Except Unit GridState
  | _, _, 0, st => .ok st
  | indexBase, r, fuelRows + 1, st =>
      let start := st.columnBase.getD 0
      match innerScan recurse node indexBase start (maxColumn - start) st with
      | .error e => .error e
      | .ok (st, clm) =>
          if (st.firstShowing ∧ st.columnBase = some clm) ∨
             (¬ st.firstShowing ∧ r ≥ 500) then .ok st
          else rowScan recurse node maxColumn (indexBase + maxColumn) (r + 1) fuelRows st

/-- Python MAX_ROW = 104_8576 (line 441). -/
def MAX_ROW : Nat := 1048576

/-- The paginator entry: maximum column from the LibreOffice version
threshold (line 440), then the row scan from row 0. -/
def gridChildren (cfg : Config) (recurse : ANode → Except Unit Element)
    (node : ANode) : Except Unit GridState :=
  let maxColumn := if verLt cfg.libreofficeVersion (7, 4) then 1024 else 16384
  rowScan recurse node maxColumn 0 0 MAX_ROW {}

/-! ## The generic child loop (lines 470-481): enumerate the children,
break at MAX_WIDTH, append each expansion; any exception raised while
traversing children stops the loop, keeps the children appended so far
and is swallowed. -/

def expandChildren (recurse : ANode → Except Unit Element) (maxWidth : Nat) :
    List ANode → Nat → List Element
  | [], _ => []
  | ch :: rest, i =>
      if i = maxWidth then []
      else
        match recurse ch with
        | .ok e => e :: expandChildren recurse maxWidth rest (i + 1)
        | .error _ => []

/-- The traversal _create_atspi_node, recursion made total with a fuel
argument: fuel = cfg.MAX_DEPTH - depth at every call reached from the
entry points (the source only ever calls it with depth 0 or 1 and stops
at depth = MAX_DEPTH, so the fuel never runs out before the depth
check). -/
def createAtspiNodeFuel (cfg : Config) :
    Nat → ANode → Nat → Option String → Except Unit Element
  | fuel, node, depth, flag =>
      let d := node.desc
      if d.broken then .error ()
      else
        let base := atspiBase d
        let flag2 := updateFlag flag (pyStrip d.roleName) d.name
        if depth = cfg.MAX_DEPTH then .ok base
        else
          match fuel with
          | 0 => .ok base
          | fuel + 1 =>
              if flag2 = some "calc" ∧ base.tag = "table" then
                match gridChildren cfg
                    (fun ch => createAtspiNodeFuel cfg fuel ch (depth + 1) flag2)
                    node with
                | .error e => .error e
                | .ok st => .ok (base.withChildren st.cells)
              else
                .ok (base.withChildren
                  (expandChildren
                    (fun ch => createAtspiNodeFuel cfg fuel ch (depth + 1) flag2)
                    cfg.MAX_WIDTH (nativeChildren node) 0))
termination_by structural fuel node depth flag => fuel

/-- The traversal at its call sites: the fuel is fixed by the depth. -/
def createAtspiNode (cfg : Config) (node : ANode) (depth : Nat)
    (flag : Option String) : Except Unit Element :=
  createAtspiNodeFuel cfg (cfg.MAX_DEPTH - depth) node depth flag

/-- The flag the children of a node inherit. -/
def childFlag (flag : Option String) (node : ANode) : Option String :=
  updateFlag flag (pyStrip node.desc.roleName) node.desc.name

/-- The condition routing a node into the spreadsheet paginator. -/
def calcCond (flag : Option String) (node : ANode) : Prop :=
  childFlag flag node = some "calc" ∧ atspiRoleTag node.desc.roleName = "table"

instance (flag : Option String) (node : ANode) : Decidable (calcCond flag node) :=
  inferInstanceAs (Decidable (_ ∧ _))

/-- Collect future results in completion order; a raised exception
propagates out of get_accessibility_tree (the route handler turns it into
a 500 response, the capture fails). -/
def collectResults : List (Except Unit Element) → Except Unit (List Element)
  | [] => .ok []
  | .ok e :: rest => (collectResults rest).map (fun l => e :: l)
  | .error _ :: _ => .error ()

/-- get_accessibility_tree (lines 483-501): one future per application
node of the desktop (no width cap at this level), each expanded at depth
1; the desktop-frame element receives the subtrees in completion order,
given here as the list of future indices in the order the workers
finish. -/
def getAccessibilityTree (cfg : Config) (desktop : ANode)
    (completed : List Nat) : Except Unit Element :=
  (collectResults (completed.filterMap
      (fun i => if i < desktop.childCount then
          some (createAtspiNode cfg (desktop.childAt i) 1 none) else none))).map
    (fun apps => Element.mk "desktop-frame" [] "" desktop.desc.handle apps)

/-! ## The pywinauto node model (Windows, server.py lines 510-672).
WDesc is what the describe phase reads. The blocks that look up the keys
cnt, cols and id in _accessibility_ns_map_windows (lines 544-563) always
raise KeyError because that table has no such keys; the bare except
swallows it, so those attributes are never emitted and they do not appear
here. states holds the successful probes of the 19 state accessors in
probe order, with the stringified lowered results; the value fields hold
the first successful probe of each accessor chain. broken models the
unguarded native calls (element_info.name, window_text, class_name,
children) raising. -/

structure WDesc where
  handle : Nat
  name : String := ""
  baseProps : List (String × String) := []
  states : List (String × String) := []
  rect : Option (Int × Int × Int × Int) := none
  windowText : String := ""
  hasSelect : Bool := false
  valStep : Option String := none
  valValue : Option String := none
  valMin : Option String := none
  valMax : Option String := none
  pyClass : String := ""
  className : String := ""
  broken : Bool := false

inductive WNode where
  | mk (desc : WDesc) (children : List WNode)

def WNode.desc : WNode → WDesc
  | .mk d _ => d

def WNode.children : WNode → List WNode
  | .mk _ c => c

/-- Python dict lookup in base_properties; a missing key raises KeyError,
caught by the enclosing try. -/
def lookupProp (props : List (String × String)) (k : String) : Option String :=
  (props.find? (fun p => p.1 = k)).map (fun p => p.2)

/-- Component block (lines 595-605): emitted whenever node.rectangle()
succeeds, with no state condition at all. -/
def wRectAttrs : Option (Int × Int × Int × Int) → List (String × String)
  | none => []
  | some (l, t, w, h) =>
      [(clark wCompNS "screencoord", "(" ++ toString l ++ ", " ++ toString t ++ ")"),
       (clark wCompNS "size", "(" ++ toString w ++ ", " ++ toString h ++ ")")]

/-- Value block (lines 617-629), insertion order step, value, min, max. -/
def wValAttrs (d : WDesc) : List (String × String) :=
  (match d.valStep with | some s => [(clark wValNS "step", s)] | none => []) ++
  (match d.valValue with | some s => [(clark wValNS "value", s)] | none => []) ++
  (match d.valMin with | some s => [(clark wValNS "min", s)] | none => []) ++
  (match d.valMax with | some s => [(clark wValNS "max", s)] | none => [])

/-- class_name and friendly_class_name from base_properties
(lines 634-640), lowercased. -/
def wClassNameAttrs (props : List (String × String)) : List (String × String) :=
  (match lookupProp props "class_name" with
   | some v => [(clark wClassNS "class_name", v.toLower)] | none => []) ++
  (match lookupProp props "friendly_class_name" with
   | some v => [(clark wClassNS "friendly_class_name", v.toLower)] | none => [])

/-- The complete attribute dict of _create_pywinauto_node in insertion
order: name, states, component, selection, value, class, class names. -/
def wAttrs (d : WDesc) : List (String × String) :=
  ("name", d.name)
  :: (d.states.map (fun p => (clark wStateNS p.1, p.2))
  ++ wRectAttrs d.rect
  ++ (if d.hasSelect then [("selection", "true")] else [])
  ++ wValAttrs d
  ++ [(clark wClassNS "class", d.pyClass)]
  ++ wClassNameAttrs d.baseProps)

/-- Tag sanitization of _create_pywinauto_node (lines 642-650): lowercase,
spaces to hyphens, every character that is not alphanumeric, underscore or
hyphen becomes a hyphen; a blank result becomes unknown; a first character
that is not alphabetic gets the fixed marker tag prepended. -/
def pywinautoRoleTag (className : String) : String :=
  let s0 := mapReplace ' ' '-' (pyLower className)
  let s := String.mk (s0.data.map
    (fun c => if c.isAlphanum ∨ c = '_' ∨ c = '-' then c else '-'))
  let s1 := if pyStrip s = "" then "unknown" else s
  match s1.data with
  | [] => s1
  | c :: _ => if ¬ c.isAlpha then "tag" ++ s1 else s1

/-- window_text becomes the element body unless it equals the name
(lines 607-610 and 654-655). -/
def wText (d : WDesc) : String :=
  if d.windowText = d.name then "" else d.windowText

/-- Traversal-shared state of the Windows walk: the visited set (the
nodes argument, keyed by handle identity) and the remaining schedule, one
completion order per expanded interior node. The source shares the set
across concurrent worker threads with no synchronization; this state is
threaded sequentially, so it realises only the serial schedules (see the
notes on runChildren and the adversarial variant WStR below). -/
structure WSt where
  visited : List Nat := []
  sched : List (List Nat) := []

/-- Run the child futures of one node sequentially in completion order:
for each future index, expand that child, threading visited set and
schedule. Order indices outside the child list have no future and are
skipped. This runs each child expansion, including all its visited-set
mutations, to completion before the next child starts: a strictly
smaller schedule set than the real interleavings of the shared set, in
which two concurrent expansions can both pass the membership check for
one handle before either inserts it. Set-dependent conclusions drawn
from this model must therefore be robust to foreign growth of the set;
the adversarial runChildrenR below quantifies over such growth. -/
def runChildren (f : WNode → WSt → (Except Unit (Option Element)) × WSt)
    (kids : List WNode) : List Nat → WSt → (List (Except Unit (Option Element))) × WSt
  | [], st => ([], st)
  | i :: rest, st =>
      match kids.get? i with
      | none => runChildren f kids rest st
      | some ch =>
          match f ch st with
          | (r, st1) =>
              match runChildren f kids rest st1 with
              | (rs, st2) => (r :: rs, st2)

/-- Assembling xml_node.extend([future.result() ...]) (lines 668-671):
if any future raised, result() re-raises inside the list comprehension,
the except swallows it and no child at all is appended; otherwise lxml
appends elementwise and a None result (a visited child) raises TypeError
after the results before it were appended, also swallowed, so the
children are the prefix of the completion-order results before the first
None. -/
def assembleChildren (rs : List (Except Unit (Option Element))) : List Element :=
  if rs.any (fun r => match r with | .error _ => true | .ok _ => false) then []
  else ((rs.map (fun r => match r with | .ok o => o | .error _ => none)).takeWhile
          Option.isSome).filterMap id

/-- The traversal _create_pywinauto_node, fuel-totalized like the AT-SPI
one. The visited check and insertion happen before anything else; a
broken node has already inserted itself when it raises. The flag argument
exists in the source and is only passed through. The check-then-add on
the shared set is unsynchronized in the source; here it is one atomic
step and subtrees run serially, so duplicate expansions that require two
concurrent tasks to interleave between check and add are outside this
definition. Properties that depend on the absence of such interleavings
are not exported; the guard properties that are exported are proved on
the adversarial variant createPywinautoNodeFuelR, which lets the set
grow arbitrarily under every check. -/
def createPywinautoNodeFuel (cfg : Config) :
    Nat → WNode → Nat → Option String → WSt → (Except Unit (Option Element)) × WSt
  | fuel, node, depth, _flag, st =>
      let d := node.desc
      if d.handle ∈ st.visited then (.ok none, st)
      else
        let st1 : WSt := { st with visited := d.handle :: st.visited }
        if d.broken then (.error (), st1)
        else
          let base := Element.mk (pywinautoRoleTag d.className) (wAttrs d)
            (wText d) d.handle []
          if depth = cfg.MAX_DEPTH then (.ok (some base), st1)
          else
            match fuel with
            | 0 => (.ok (some base), st1)
            | fuel + 1 =>
                let kids := node.children.take cfg.MAX_WIDTH
                let ord := st1.sched.head?.getD (List.range kids.length)
                let st2 : WSt := { st1 with sched := st1.sched.tail }
                let (rs, st3) := runChildren
                  (fun ch s => createPywinautoNodeFuel cfg fuel ch (depth + 1) _flag s)
                  kids ord st2
                (.ok (some (base.withChildren (assembleChildren rs))), st3)
termination_by structural fuel node depth flag st => fuel

/-- The Windows traversal at its call sites. -/
def createPywinautoNode (cfg : Config) (node : WNode) (depth : Nat)
    (flag : Option String) (st : WSt) : (Except Unit (Option Element)) × WSt :=
  createPywinautoNodeFuel cfg (cfg.MAX_DEPTH - depth) node depth flag st

/-- Adversarial Windows state: like WSt, but with an injection stream
adv. Before every membership check one batch of handles, standing for
insertions performed by any other concurrently running task, joins the
visited set. The shared set of the source only ever grows (nothing is
ever removed), so every real interleaving shows each check a superset of
the handles this task has causally observed; quantifying over all
injection streams therefore covers the effect of every interleaving on
the membership checks of this task. -/
structure WStR where
  visited : List Nat := []
  sched : List (List Nat) := []
  adv : List (List Nat) := []

/-- Completion-order child batch under adversarial insertions. -/
def runChildrenR (f : WNode → WStR → (Except Unit (Option Element)) × WStR)
    (kids : List WNode) : List Nat → WStR → (List (Except Unit (Option Element))) × WStR
  | [], st => ([], st)
  | i :: rest, st =>
      match kids.get? i with
      | none => runChildrenR f kids rest st
      | some ch =>
          match f ch st with
          | (r, st1) =>
              match runChildrenR f kids rest st1 with
              | (rs, st2) => (r :: rs, st2)

/-- The Windows traversal under adversarial foreign insertions: identical
to createPywinautoNodeFuel except that the next injection batch joins the
visited set at entry, before the membership check. A handle present in
the set when a call starts is still present at every check inside the
call, since the set only grows: this grounds the ancestor-skip guard for
every injection stream. The races this still cannot show are two
concurrent tasks dropping each other's insertions, which can only make
the real set smaller at a check than any run of this definition; those
interleavings can produce duplicate sibling expansions, and no theorem
below claims they cannot. -/
def createPywinautoNodeFuelR (cfg : Config) :
    Nat → WNode → Nat → Option String → WStR → (Except Unit (Option Element)) × WStR
  | fuel, node, depth, _flag, st =>
      let d := node.desc
      let stI : WStR := { st with visited := st.adv.head?.getD [] ++ st.visited, adv := st.adv.tail }
      if d.handle ∈ stI.visited then (.ok none, stI)
      else
        let st1 : WStR := { stI with visited := d.handle :: stI.visited }
        if d.broken then (.error (), st1)
        else
          let base := Element.mk (pywinautoRoleTag d.className) (wAttrs d)
            (wText d) d.handle []
          if depth = cfg.MAX_DEPTH then (.ok (some base), st1)
          else
            match fuel with
            | 0 => (.ok (some base), st1)
            | fuel + 1 =>
                let kids := node.children.take cfg.MAX_WIDTH
                let ord := st1.sched.head?.getD (List.range kids.length)
                let st2 : WStR := { st1 with sched := st1.sched.tail }
                let (rs, st3) := runChildrenR
                  (fun ch s => createPywinautoNodeFuelR cfg fuel ch (depth + 1) _flag s)
                  kids ord st2
                (.ok (some (base.withChildren (assembleChildren rs))), st3)
termination_by structural fuel node depth flag st => fuel

/-- The adversarial traversal at its call sites. -/
def createPywinautoNodeR (cfg : Config) (node : WNode) (depth : Nat)
    (flag : Option String) (st : WStR) : (Except Unit (Option Element)) × WStR :=
  createPywinautoNodeFuelR cfg (cfg.MAX_DEPTH - depth) node depth flag st

/-- Extract the element of a successful optional expansion result. -/
def okOptElem : Except Unit (Option Element) → Element
  | .ok (some e) => e
  | _ => .mk "" [] "" 0 []

/-- Role tag of _create_axui_node (macOS, server.py line 795): the role
description lowercased with spaces replaced by underscores; a missing or
empty (falsy) role gives unknown_role. -/
def axuiRoleTag (role : Option String) : String :=
  match role with
  | none => "unknown_role"
  | some r => if r = "" then "unknown_role" else mapReplace ' ' '_' (pyLower r)

/-! ## Concrete desktops and nodes used by the counterexamples and
witnesses. -/

/-- Default configuration: the constants of UbuntuXfce4Server.__init__
with a LibreOffice at or past 7.4 (maximum column 16384). -/
def cfgD : Config := {}

/-- Configuration with a LibreOffice before 7.4 (maximum column 1024). -/
def cfgOld : Config := { libreofficeVersion := (7, 0) }

/-- Extract the element of a successful AT-SPI expansion. -/
def okElemA : Except Unit Element → Element
  | .ok e => e
  | .error _ => .mk "" [] "" 0 []

/-- Extract the element of a successful Windows expansion. -/
def okElemW : (Except Unit (Option Element)) × WSt → Element
  | (.ok (some e), _) => e
  | _ => .mk "" [] "" 0 []

/-- Extract the grid state of a successful paginator run. -/
def okGrid : Except Unit GridState → GridState
  | .ok st => st
  | .error _ => {}

/-- Scenario B cell: the grid is populated (showing) exactly on the first
10 rows and first 5 columns; the cell at flat index i sits at row
i / 16384 and column i % 16384. -/
def cellB (i : Nat) : ANode :=
  .leaf { handle := 100000 + i, roleName := "table cell",
          states := if i / 16384 < 10 ∧ i % 16384 < 5 then ["showing"] else [] }

/-- Scenario B grid node. -/
def gridB : ANode := .mk { handle := 5, roleName := "table" } 163841 cellB

/-- Scenario B spreadsheet document wrapping the grid. -/
def sheetB : ANode :=
  .mk { handle := 4, roleName := "document spreadsheet" } 1 (fun _ => gridB)

/-- The cell expansion the paginator performs inside the traversal of
gridB at depth 2 with the inherited calc flag. -/
def recB : ANode → Except Unit Element :=
  fun ch => createAtspiNode cfgD ch (2 + 1) (childFlag (some "calc") gridB)

/-- A grid whose first 1025 flat cells are showing: row 0 fills all 1024
columns of a pre-7.4 sheet and row 1 has one further showing cell. -/
def cellC (i : Nat) : ANode :=
  .leaf { handle := 200000 + i, roleName := "table cell",
          states := if i ≤ 1024 then ["showing"] else [] }

def gridC : ANode := .mk { handle := 6, roleName := "table" } 2049 cellC

def sheetC : ANode :=
  .mk { handle := 3, roleName := "document spreadsheet" } 1 (fun _ => gridC)

/-- The cell expansion the paginator performs inside the traversal of
gridC at depth 2. -/
def recC : ANode → Except Unit Element :=
  fun ch => createAtspiNode cfgOld ch (2 + 1) (childFlag (some "calc") gridC)

/-- A parent whose only child carries the same handle as the parent: the
synthetic cycle of scenario C. -/
def cyc : ANode := .mk { handle := 7, roleName := "panel" } 1
  (fun _ => .leaf { handle := 7, roleName := "panel" })

def appA : ANode := .leaf { handle := 10, roleName := "application", name := "A" }

def appB : ANode := .leaf { handle := 11, roleName := "application", name := "B" }

/-- A desktop with two applications, enumeration order appA then appB. -/
def demoDesktop : ANode := .mk { handle := 0 } 2 (fun i => if i = 0 then appA else appB)

/-- Scenario D parent: three children, the middle one raises on
description. -/
def brokeMid : ANode := .mk { handle := 20, roleName := "panel" } 3
  (fun i => if i = 0 then .leaf { handle := 21, roleName := "push button", name := "A" }
   else if i = 1 then .leaf { handle := 22, broken := true }
   else .leaf { handle := 23, roleName := "push button", name := "C" })

def wNoStateDesc : WDesc :=
  { handle := 30, className := "SomePane", rect := some (3, 4, 10, 20) }

/-- A Windows node whose every state probe failed but whose rectangle
query succeeded. -/
def wNoState : WNode := .mk wNoStateDesc []

def wKid1 : WNode := .mk { handle := 41, className := "Pane" } []

def wKid2 : WNode := .mk { handle := 42, className := "Pane" } []

/-- A small healthy Windows tree. -/
def wParent : WNode := .mk { handle := 40, className := "Window" } [wKid1, wKid2]

def wKid3 : WNode := .mk { handle := 43, className := "Pane" } []

def wKid4 : WNode := .mk { handle := 44, className := "Pane" } []

/-- A Windows window with four panes, one more than the small width
ceiling. -/
def wParent4 : WNode := .mk { handle := 45, className := "Window" } [wKid1, wKid2, wKid3, wKid4]

/-- A Linux node with both gating states and a successful extents
query. -/
def geomNode : ANode := .leaf { handle := 90, roleName := "panel", states := ["visible", "showing"], extents := some (1, 2, 30, 40) }

/-- A Linux node whose role begins with a digit. -/
def digitRole : ANode := .leaf { handle := 60, roleName := "123 abc" }

/-- A childless node whose optional interfaces are all absent. -/
def bareNode : ANode := .leaf { handle := 70, roleName := "push button", name := "OK" }

/-- A parent with four trivial children, used with a width ceiling of
three. -/
def fourKids : ANode := .mk { handle := 80, roleName := "panel" } 4
  (fun i => .leaf { handle := 81 + i, roleName := "push button" })

/-- A parent with five children, the second broken, used with a width
ceiling of three. -/
def fiveKids : ANode := .mk { handle := 85, roleName := "panel" } 5
  (fun i => if i = 1 then .leaf { handle := 91, broken := true } else .leaf { handle := 90 + i, roleName := "push button" })

/-- A configuration with a small width ceiling, to exercise the width
theorems cheaply. -/
def cfgW3 : Config := { MAX_WIDTH := 3 }

/-! ## Basic lemmas about the emitted-element accessors -/

@[simp] theorem Element.tag_mk (t a b h c) : (Element.mk t a b h c).tag = t := rfl

@[simp] theorem Element.attrs_mk (t a b h c) : (Element.mk t a b h c).attrs = a := rfl

@[simp] theorem Element.body_mk (t a b h c) : (Element.mk t a b h c).body = b := rfl

@[simp] theorem Element.srcHandle_mk (t a b h c) :
    (Element.mk t a b h c).srcHandle = h := rfl

@[simp] theorem Element.children_mk (t a b h c) :
    (Element.mk t a b h c).children = c := rfl

@[simp] theorem Element.withChildren_mk (t a b h c c2) :
    (Element.mk t a b h c).withChildren c2 = Element.mk t a b h c2 := rfl

@[simp] theorem Element.tag_withChildren (e : Element) (c) :
    (e.withChildren c).tag = e.tag := by cases e; rfl

@[simp] theorem Element.attrs_withChildren (e : Element) (c) :
    (e.withChildren c).attrs = e.attrs := by cases e; rfl

@[simp] theorem Element.body_withChildren (e : Element) (c) :
    (e.withChildren c).body = e.body := by cases e; rfl

@[simp] theorem Element.srcHandle_withChildren (e : Element) (c) :
    (e.withChildren c).srcHandle = e.srcHandle := by cases e; rfl

@[simp] theorem Element.children_withChildren (e : Element) (c) :
    (e.withChildren c).children = c := by cases e; rfl

@[simp] theorem atspiBase_tag (d : ADesc) : (atspiBase d).tag = atspiRoleTag d.roleName := rfl

@[simp] theorem atspiBase_attrs (d : ADesc) : (atspiBase d).attrs = atspiAttrs d := rfl

@[simp] theorem atspiBase_body (d : ADesc) : (atspiBase d).body = textOf d.text := rfl

@[simp] theorem atspiBase_srcHandle (d : ADesc) : (atspiBase d).srcHandle = d.handle := rfl

@[simp] theorem elemHandles_mk (t a b h c) :
    elemHandles (Element.mk t a b h c) = h :: elemHandlesL c := rfl

@[simp] theorem elemHandlesL_nil : elemHandlesL [] = [] := rfl

@[simp] theorem elemHandlesL_cons (e es) :
    elemHandlesL (e :: es) = elemHandles e ++ elemHandlesL es := rfl

@[simp] theorem elemHeight_mk (t a b h c) :
    elemHeight (Element.mk t a b h c) = elemHeightL c := rfl

@[simp] theorem elemHeightL_nil : elemHeightL [] = 0 := rfl

@[simp] theorem elemHeightL_cons (e es) :
    elemHeightL (e :: es) = max (elemHeight e + 1) (elemHeightL es) := rfl

@[simp] theorem elemHeight_withChildren (e : Element) (c) :
    elemHeight (e.withChildren c) = elemHeightL c := by cases e; rfl

theorem elemHeightL_le_of_forall {cs : List Element} {k : Nat}
    (h : ∀ e ∈ cs, elemHeight e ≤ k) : elemHeightL cs ≤ k + 1 := by
  induction cs with
  | nil => simp
  | cons e es ih =>
      simp only [elemHeightL_cons, max_le_iff]
      exact ⟨by have := h e (by simp); omega,
             ih (fun x hx => h x (by simp [hx]))⟩

/-! ## Clark-notation keys: shape, injectivity and disjointness.
These establish that the attribute dict never confuses attributes from
different namespaces, which underpins the omission lemmas. -/

theorem String.eq_of_data_eq {s t : String} (h : s.data = t.data) : s = t := by
  cases s; cases t; exact congrArg String.mk h

theorem clark_data (u l : String) :
    (clark u l).data = '\x7b' :: (u.data ++ ('\x7d' :: l.data)) := by
  simp [clark, String.data_append]

theorem clark_head (u l : String) : (clark u l).data.head? = some '\x7b' := by
  rw [clark_data]; rfl

/-- Splitting at the first closing brace is unambiguous when neither
namespace string contains one. -/
theorem brace_split {u1 u2 x y : List Char}
    (h1 : '\x7d' ∉ u1) (h2 : '\x7d' ∉ u2)
    (h : u1 ++ ('\x7d' :: x) = u2 ++ ('\x7d' :: y)) : u1 = u2 ∧ x = y := by
  induction u1 generalizing u2 with
  | nil =>
      cases u2 with
      | nil => simpa using h
      | cons c u2t =>
          simp only [List.nil_append, List.cons_append, List.cons.injEq] at h
          exact absurd (h.1 ▸ h2) (by simp)
  | cons c u1t ih =>
      cases u2 with
      | nil =>
          simp only [List.cons_append, List.nil_append, List.cons.injEq] at h
          exact absurd (h.1 ▸ h1) (by simp)
      | cons c2 u2t =>
          simp only [List.cons_append, List.cons.injEq] at h
          have h1t : '\x7d' ∉ u1t := fun hm => h1 (by simp [hm])
          have h2t : '\x7d' ∉ u2t := fun hm => h2 (by simp [hm])
          obtain ⟨he, ht⟩ := ih h1t h2t h.2
          exact ⟨by simp [h.1, he], ht⟩

/-- A namespace string with no closing brace. -/
def noBrace (u : String) : Prop := '\x7d' ∉ u.data

instance (u : String) : Decidable (noBrace u) :=
  inferInstanceAs (Decidable ('\x7d' ∉ u.data))

theorem clark_inj {u1 u2 x y : String} (h1 : noBrace u1) (h2 : noBrace u2)
    (h : clark u1 x = clark u2 y) : u1 = u2 ∧ x = y := by
  have hd := congrArg String.data h
  rw [clark_data, clark_data] at hd
  simp only [List.cons.injEq, true_and] at hd
  obtain ⟨hu, hl⟩ := brace_split h1 h2 hd
  exact ⟨String.eq_of_data_eq hu, String.eq_of_data_eq hl⟩

theorem noBrace_uStateNS : noBrace uStateNS := by decide
theorem noBrace_uAttrNS : noBrace uAttrNS := by decide
theorem noBrace_uCompNS : noBrace uCompNS := by decide
theorem noBrace_uValNS : noBrace uValNS := by decide
theorem noBrace_uActNS : noBrace uActNS := by decide

/-- Two Clark keys with distinct brace-free namespaces are distinct. -/
theorem clark_ne_of_ns_ne {u1 u2 : String} (h1 : noBrace u1) (h2 : noBrace u2)
    (hne : u1 ≠ u2) (x y : String) : clark u1 x ≠ clark u2 y := by
  intro h
  exact hne (clark_inj h1 h2 h).1

/-- A Clark key never equals a plain (brace-less) key such as name,
image or selection. -/
theorem clark_ne_plain (u l : String) {s : String}
    (hs : s.data.head? ≠ some '\x7b') : clark u l ≠ s := by
  intro h
  exact hs (h ▸ clark_head u l)

/-! ## Structural lemmas about the AT-SPI traversal -/

theorem atspi_broken {cfg fuel node depth flag} (hb : node.desc.broken = true) :
    createAtspiNodeFuel cfg fuel node depth flag = .error () := by
  cases fuel with
  | zero => rw [createAtspiNodeFuel]; simp [hb]
  | succ f => rw [createAtspiNodeFuel]; simp [hb]

/-- Whatever path succeeds, the element of a node keeps the tag,
attributes, body and source handle of its describe phase. -/
theorem atspi_ok_shape {cfg fuel node depth flag e}
    (h : createAtspiNodeFuel cfg fuel node depth flag = .ok e) :
    e.tag = atspiRoleTag node.desc.roleName ∧ e.attrs = atspiAttrs node.desc ∧
    e.body = textOf node.desc.text ∧ e.srcHandle = node.desc.handle := by
  rw [createAtspiNodeFuel] at h
  by_cases hb : node.desc.broken
  · simp [hb] at h
  · simp only [hb, if_false, Bool.false_eq_true] at h
    split at h
    · cases h; simp [atspiBase]
    · split at h
      · cases h; simp [atspiBase]
      · split at h
        · split at h
          · cases h
          · cases h; simp [atspiBase]
        · cases h; simp [atspiBase]

/-- The generic (non-paginator) expansion step of _create_atspi_node:
below the depth ceiling a healthy node expands its enumerated children
through the width-capped loop. -/
theorem atspi_generic (cfg : Config) {node depth flag}
    (hb : node.desc.broken = false)
    (hd : depth < cfg.MAX_DEPTH)
    (hng : ¬ calcCond flag node) :
    createAtspiNode cfg node depth flag =
      .ok ((atspiBase node.desc).withChildren
        (expandChildren
          (fun ch => createAtspiNode cfg ch (depth + 1) (childFlag flag node))
          cfg.MAX_WIDTH (nativeChildren node) 0)) := by
  have hfe : cfg.MAX_DEPTH - depth = (cfg.MAX_DEPTH - (depth + 1)) + 1 := by omega
  unfold createAtspiNode
  rw [hfe, createAtspiNodeFuel]
  simp only [hb, Bool.false_eq_true, if_false, Nat.ne_of_lt hd, if_neg]
  rw [if_neg]
  · rfl
  · simpa [calcCond, childFlag] using hng

/-- The paginator expansion step: a calc-flagged table below the depth
ceiling delegates entirely to the grid scan. -/
theorem atspi_grid (cfg : Config) {node depth flag}
    (hb : node.desc.broken = false)
    (hd : depth < cfg.MAX_DEPTH)
    (hg : calcCond flag node) :
    createAtspiNode cfg node depth flag =
      (match gridChildren cfg
          (fun ch => createAtspiNode cfg ch (depth + 1) (childFlag flag node))
          node with
       | .error e => .error e
       | .ok st => .ok ((atspiBase node.desc).withChildren st.cells)) := by
  have hfe : cfg.MAX_DEPTH - depth = (cfg.MAX_DEPTH - (depth + 1)) + 1 := by omega
  unfold createAtspiNode
  rw [hfe, createAtspiNodeFuel]
  simp only [hb, Bool.false_eq_true, if_false, Nat.ne_of_lt hd, if_neg]
  rw [if_pos]
  · rfl
  · simpa [calcCond, childFlag] using hg

/-- The width-capped loop over the first children, rephrased: it expands
the longest successfully expanding prefix of the first maxWidth - i
children, in enumeration order. -/
theorem expandChildren_eq (recurse : ANode → Except Unit Element) (w : Nat) :
    ∀ (l : List ANode) (i : Nat), i ≤ w →
    expandChildren recurse w l i =
      ((l.take (w - i)).takeWhile (fun ch => (recurse ch).isOk)).filterMap
        (fun ch => (recurse ch).toOption) := by
  intro l
  induction l with
  | nil => intro i _; simp [expandChildren]
  | cons ch rest ih =>
      intro i hi
      by_cases hiw : i = w
      · subst hiw; rw [expandChildren]; simp
      · have hs : w - i = (w - (i + 1)) + 1 := by omega
        rw [expandChildren, if_neg hiw, hs, List.take_succ_cons]
        cases hr : recurse ch with
        | ok e =>
            rw [List.takeWhile_cons_of_pos (by rw [hr]; rfl),
              List.filterMap_cons, hr, ih (i + 1) (by omega)]
            rfl
        | error err =>
            rw [List.takeWhile_cons_of_neg (by simp only [hr]; exact fun hc => nomatch hc)]
            rfl

theorem expandChildren_length_le (recurse : ANode → Except Unit Element)
    (w : Nat) (l : List ANode) (i : Nat) (hi : i ≤ w) :
    (expandChildren recurse w l i).length ≤ w - i := by
  rw [expandChildren_eq recurse w l i hi]
  calc (((l.take (w - i)).takeWhile _).filterMap _).length
      ≤ ((l.take (w - i)).takeWhile (fun ch => (recurse ch).isOk)).length :=
        List.length_filterMap_le _ _
    _ ≤ (l.take (w - i)).length := (List.takeWhile_sublist _).length_le
    _ ≤ w - i := by simp [List.length_take]

theorem mem_expandChildren {recurse : ANode → Except Unit Element} {w : Nat}
    {l : List ANode} {e : Element} (h : e ∈ expandChildren recurse w l 0) :
    ∃ ch ∈ l, recurse ch = .ok e := by
  rw [expandChildren_eq recurse w l 0 (Nat.zero_le w)] at h
  obtain ⟨ch, hch, hok⟩ := List.mem_filterMap.mp h
  refine ⟨ch, ?_, ?_⟩
  · exact (List.take_subset _ _) ((List.takeWhile_sublist _).subset hch)
  · cases hr : recurse ch with
    | ok e2 => rw [hr] at hok; simp [Except.toOption] at hok; rw [hok]
    | error err => rw [hr] at hok; simp [Except.toOption] at hok

@[simp] theorem cells_stepCheck (st : GridState) (clm : Nat) :
    (stepCheck st clm).cells = st.cells := rfl

theorem mem_cells_stepShowing {st : GridState} {clm : Nat} {cellElem e : Element}
    (h : e ∈ (stepShowing st clm cellElem).cells) : e ∈ st.cells ∨ e = cellElem := by
  unfold stepShowing at h
  split at h <;> simpa using h

/-- Every cell element the inner column loop adds comes from a successful
recursive expansion. -/
theorem innerScan_cells_sub {recurse : ANode → Except Unit Element}
    {node : ANode} {ib : Nat} :
    ∀ {fuel clm : Nat} {st st2 : GridState} {c : Nat},
    innerScan recurse node ib clm fuel st = .ok (st2, c) →
    ∀ e ∈ st2.cells, e ∈ st.cells ∨ ∃ cell, recurse cell = .ok e := by
  intro fuel
  induction fuel with
  | zero =>
      intro clm st st2 c h e he
      rw [innerScan] at h
      cases h
      exact Or.inl he
  | succ f ih =>
      intro clm st st2 c h e he
      rw [innerScan] at h
      split at h
      · split at h
        · split at h
          · cases h
          · rename_i cellElem hok
            rcases ih h e he with hmem | hrec
            · rcases mem_cells_stepShowing (by simpa using hmem) with hmem2 | heq
              · exact Or.inl hmem2
              · exact Or.inr ⟨node.childAt (ib + clm), by rw [hok, heq]⟩
            · exact Or.inr hrec
        · split at h
          · cases h
            exact Or.inl (by simpa using he)
          · rcases ih h e he with hmem | hrec
            · exact Or.inl (by simpa using hmem)
            · exact Or.inr hrec
      · cases h

/-- The same for the outer row loop. -/
theorem rowScan_cells_sub {recurse : ANode → Except Unit Element}
    {node : ANode} {mc : Nat} :
    ∀ {fuelRows ib r : Nat} {st st2 : GridState},
    rowScan recurse node mc ib r fuelRows st = .ok st2 →
    ∀ e ∈ st2.cells, e ∈ st.cells ∨ ∃ cell, recurse cell = .ok e := by
  intro fuelRows
  induction fuelRows with
  | zero =>
      intro ib r st st2 h e he
      rw [rowScan] at h
      cases h
      exact Or.inl he
  | succ f ih =>
      intro ib r st st2 h e he
      rw [rowScan] at h
      split at h
      · cases h
      · rename_i stmid hmid
        split at h
        · cases h
          exact innerScan_cells_sub hmid e he
        · rcases ih h e he with hmem | hrec
          · exact innerScan_cells_sub hmid e hmem
          · exact Or.inr hrec

/-- Every cell the paginator emits comes from a successful recursive
expansion. -/
theorem gridChildren_cells_sub {cfg : Config} {recurse : ANode → Except Unit Element}
    {node : ANode} {st2 : GridState}
    (h : gridChildren cfg recurse node = .ok st2) :
    ∀ e ∈ st2.cells, ∃ cell, recurse cell = .ok e := by
  intro e he
  unfold gridChildren at h
  rcases rowScan_cells_sub h e he with hmem | hrec
  · simp at hmem
  · exact hrec

/-- Every successful expansion emits a tree of height at most
MAX_DEPTH - depth: recursion is bounded by the depth ceiling alone. -/
theorem atspi_height (cfg : Config) :
    ∀ (fuel : Nat) (node : ANode) (depth : Nat) (flag : Option String) (e : Element),
    depth ≤ cfg.MAX_DEPTH → fuel = cfg.MAX_DEPTH - depth →
    createAtspiNodeFuel cfg fuel node depth flag = .ok e →
    elemHeight e ≤ cfg.MAX_DEPTH - depth := by
  intro fuel
  induction fuel with
  | zero =>
      intro node depth flag e _ _ h
      rw [createAtspiNodeFuel] at h
      split at h
      · cases h
      · split at h
        · cases h; simp [atspiBase]
        · cases h; simp [atspiBase]
  | succ f ih =>
      intro node depth flag e hdle hfuel h
      have hdlt : depth < cfg.MAX_DEPTH := by omega
      have hf2 : f = cfg.MAX_DEPTH - (depth + 1) := by omega
      have hstep : cfg.MAX_DEPTH - depth = (cfg.MAX_DEPTH - (depth + 1)) + 1 := by omega
      have hw : createAtspiNode cfg node depth flag =
          createAtspiNodeFuel cfg (f + 1) node depth flag := by
        unfold createAtspiNode; rw [← hfuel]
      by_cases hb : node.desc.broken
      · rw [atspi_broken hb] at h; cases h
      · have hbf : node.desc.broken = false := by simpa using hb
        by_cases hg : calcCond flag node
        · have hgrideq := atspi_grid cfg hbf hdlt hg
          rw [hw] at hgrideq
          rw [hgrideq] at h
          cases hgr : gridChildren cfg
              (fun ch => createAtspiNode cfg ch (depth + 1) (childFlag flag node))
              node with
          | error err => rw [hgr] at h; cases h
          | ok st =>
              rw [hgr] at h
              cases h
              rw [elemHeight_withChildren, hstep]
              refine elemHeightL_le_of_forall (fun e2 he2 => ?_)
              obtain ⟨cell, hcell⟩ := gridChildren_cells_sub hgr e2 he2
              unfold createAtspiNode at hcell
              rw [← hf2] at hcell
              exact ih cell (depth + 1) _ e2 (by omega) hf2 hcell
        · have hgen := atspi_generic cfg hbf hdlt hg
          rw [hw] at hgen
          rw [hgen] at h
          cases h
          rw [elemHeight_withChildren, hstep]
          refine elemHeightL_le_of_forall (fun e2 he2 => ?_)
          obtain ⟨ch, _, hch⟩ := mem_expandChildren he2
          unfold createAtspiNode at hch
          rw [← hf2] at hch
          exact ih ch (depth + 1) _ e2 (by omega) hf2 hch

theorem nativeChildren_length (n : ANode) : (nativeChildren n).length = n.childCount := by
  simp [nativeChildren]

theorem nativeChildren_get? {n : ANode} {i : Nat} (hi : i < n.childCount) :
    (nativeChildren n).get? i = some (n.childAt i) := by
  simp only [nativeChildren, List.get?_eq_getElem?, List.getElem?_map]
  rw [List.getElem?_range hi]
  rfl

theorem takeWhile_eq_self_of {α : Type} {p : α → Bool} :
    ∀ {l : List α}, (∀ x ∈ l, p x = true) → l.takeWhile p = l := by
  intro l
  induction l with
  | nil => intro _; rfl
  | cons a rest ih =>
      intro h
      rw [List.takeWhile_cons_of_pos (h a (by simp))]
      rw [ih (fun x hx => h x (by simp [hx]))]

theorem takeWhile_eq_take_of {α : Type} {p : α → Bool} :
    ∀ {l : List α} {j : Nat},
    (∀ i, i < j → ∀ x, l.get? i = some x → p x = true) →
    (∀ x, l.get? j = some x → p x = false) →
    l.takeWhile p = l.take j := by
  intro l
  induction l with
  | nil => intro j _ _; simp
  | cons a rest ih =>
      intro j hpre hj
      cases j with
      | zero =>
          have ha : p a = false := hj a rfl
          rw [List.takeWhile_cons_of_neg (by simp [ha]), List.take_zero]
      | succ j2 =>
          have ha : p a = true := hpre 0 (Nat.succ_pos j2) a rfl
          rw [List.takeWhile_cons_of_pos ha, List.take_succ_cons]
          rw [ih (fun i hi x hx => hpre (i + 1) (by omega) x hx)
              (fun x hx => hj x hx)]

theorem length_filterMap_of_isSome {α β : Type} {f : α → Option β} :
    ∀ {l : List α}, (∀ x ∈ l, (f x).isSome = true) →
    (l.filterMap f).length = l.length := by
  intro l
  induction l with
  | nil => intro _; rfl
  | cons a rest ih =>
      intro h
      have ha := h a (by simp)
      obtain ⟨b, hb⟩ := Option.isSome_iff_exists.mp ha
      rw [List.filterMap_cons, hb]
      simp only [List.length_cons]
      rw [ih (fun x hx => h x (by simp [hx]))]

/-- Elements collected by the completion loop come from successful
futures. -/
theorem mem_collectResults {rs : List (Except Unit Element)} {l : List Element}
    (h : collectResults rs = .ok l) : ∀ e ∈ l, .ok e ∈ rs := by
  induction rs generalizing l with
  | nil => rw [collectResults] at h; cases h; simp
  | cons r rest ih =>
      intro e he
      cases r with
      | ok e1 =>
          rw [collectResults] at h
          cases hrest : collectResults rest with
          | ok l2 =>
              rw [hrest] at h
              simp only [Except.map] at h
              cases h
              rcases he with _ | hmem
              · simp
              · simp only [List.mem_cons]
                exact Or.inr (ih hrest e (by assumption))
          | error err => rw [hrest] at h; simp [Except.map] at h
      | error err => rw [collectResults] at h; cases h

/-! ## Evaluation lemmas for the 1025-cell grid scenario.
The counterexample grid emits 1025 cells, too many to evaluate inside the
kernel, so the three scanned rows are handled by lemmas: row 0 appends
its 1024 showing cells, row 1 appends one more and breaks, row 2 finds
nothing at columnBase and stops the row loop. -/

@[simp] theorem gridC_childCount : gridC.childCount = 2049 := rfl

@[simp] theorem gridC_childAt (i : Nat) : gridC.childAt i = cellC i := rfl

theorem cellC_not_calc (i : Nat) (flag : Option String) : ¬ calcCond flag (cellC i) := by
  intro hc
  have h2 := hc.2
  simp only [cellC, ANode.desc] at h2
  exact absurd h2 (by decide)

theorem recC_cell_ok (i : Nat) : ∃ E, recC (cellC i) = .ok E := by
  unfold recC
  exact ⟨_, atspi_generic cfgOld rfl (by decide) (cellC_not_calc i _)⟩

theorem cellC_showing {i : Nat} (hi : i ≤ 1024) :
    "showing" ∈ (cellC i).desc.states := by
  simp only [cellC, ANode.desc]
  rw [if_pos hi]
  simp

theorem cellC_not_showing {i : Nat} (hi : 1024 < i) :
    "showing" ∉ (cellC i).desc.states := by
  simp only [cellC, ANode.desc]
  rw [if_neg (by omega)]
  simp

theorem stepShowing_of_first {st : GridState} (hfs : st.firstShowing = true)
    (clm : Nat) (E : Element) :
    stepShowing st clm E = { st with cells := st.cells ++ [E] } := by
  unfold stepShowing
  rw [if_pos hfs]

theorem stepShowing_of_not_first {st : GridState} (hfs : st.firstShowing = false)
    (clm : Nat) (E : Element) :
    stepShowing st clm E =
      { st with columnBase := some clm, firstShowing := true,
                cells := st.cells ++ [E] } := by
  unfold stepShowing
  rw [if_neg (by simp [hfs])]

theorem stepShowing_first_fields {st : GridState} (hfs : st.firstShowing = true)
    (clm : Nat) (E : Element) :
    (stepShowing (stepCheck st clm) clm E).firstShowing = true ∧
    (stepShowing (stepCheck st clm) clm E).columnBase = st.columnBase ∧
    (stepShowing (stepCheck st clm) clm E).cells.length = st.cells.length + 1 ∧
    (stepShowing (stepCheck st clm) clm E).maxCol = max st.maxCol clm := by
  rw [stepShowing_of_first (show (stepCheck st clm).firstShowing = true from hfs)]
  refine ⟨hfs, rfl, by simp [stepCheck], rfl⟩

/-- Row 0 tail: from any column clm with clm + fuel = 1024, every cell of
row 0 is showing, so the scan appends fuel cells and ends the range with
the loop variable at 1023. -/
theorem row0C : ∀ (fuel clm : Nat) (st : GridState),
    clm + fuel = 1024 → st.firstShowing = true →
    ∃ st2, innerScan recC gridC 0 clm fuel st = .ok (st2, 1023) ∧
      st2.cells.length = st.cells.length + fuel ∧
      st2.firstShowing = true ∧ st2.columnBase = st.columnBase := by
  intro fuel
  induction fuel with
  | zero =>
      intro clm st hsum hfs
      rw [innerScan]
      exact ⟨st, by rw [show clm = 1024 by omega], rfl, hfs, rfl⟩
  | succ f ih =>
      intro clm st hsum hfs
      rw [innerScan]
      rw [if_pos (show 0 + clm < gridC.childCount by simp; omega)]
      rw [if_pos (show "showing" ∈ (gridC.childAt (0 + clm)).desc.states by
        rw [gridC_childAt]; exact cellC_showing (by omega))]
      obtain ⟨E, hE⟩ := recC_cell_ok (0 + clm)
      rw [gridC_childAt, hE]
      obtain ⟨hf1, hf2, hf3, hf4⟩ := stepShowing_first_fields hfs clm E
      obtain ⟨st2, hrun, hlen, hfs3, hcb⟩ := ih (clm + 1)
        (stepShowing (stepCheck st clm) clm E) (by omega) hf1
      refine ⟨st2, hrun, ?_, hfs3, ?_⟩
      · rw [hlen, hf3]; omega
      · rw [hcb, hf2]

/-- Row 1: the cell at flat index 1024 (column 0) is showing, the one at
1025 (column 1) is not, so the scan appends one cell and breaks with the
loop variable at 1. -/
theorem row1C : ∀ (f : Nat) (st : GridState),
    st.firstShowing = true → st.columnBase = some 0 →
    ∃ st2, innerScan recC gridC 1024 0 ((f + 1) + 1) st = .ok (st2, 1) ∧
      st2.cells.length = st.cells.length + 1 ∧
      st2.firstShowing = true ∧ st2.columnBase = some 0 := by
  intro f st hfs hcb
  rw [innerScan]
  rw [if_pos (show 1024 + 0 < gridC.childCount by simp)]
  rw [if_pos (show "showing" ∈ (gridC.childAt (1024 + 0)).desc.states by
    rw [gridC_childAt]; exact cellC_showing (by omega))]
  obtain ⟨E, hE⟩ := recC_cell_ok (1024 + 0)
  rw [gridC_childAt, hE]
  dsimp only
  obtain ⟨hf1, hf2, hf3, hf4⟩ := stepShowing_first_fields hfs 0 E
  rw [innerScan]
  rw [if_pos (show 1024 + (0 + 1) < gridC.childCount by simp)]
  rw [if_neg (show ¬ "showing" ∈ (gridC.childAt (1024 + (0 + 1))).desc.states by
    rw [gridC_childAt]; exact cellC_not_showing (by omega))]
  rw [if_pos (show ((stepShowing (stepCheck st 0) 0 E).firstShowing = true ∧
      (stepShowing (stepCheck st 0) 0 E).columnBase ≠ none) ∨ (0 + 1 : Nat) ≥ 500 by
    exact Or.inl ⟨hf1, by rw [hf2, hcb]; simp⟩)]
  refine ⟨_, rfl, ?_, ?_, ?_⟩
  · simpa [stepCheck] using hf3
  · simpa [stepCheck] using hf1
  · rw [show (stepCheck (stepShowing (stepCheck st 0) 0 E) (0 + 1)).columnBase =
      (stepShowing (stepCheck st 0) 0 E).columnBase from rfl, hf2, hcb]

/-- Row 2: the cell at flat index 2048 (column 0) is not showing and a
column base is set, so the scan breaks immediately at the loop start. -/
theorem row2C : ∀ (f : Nat) (st : GridState),
    st.firstShowing = true → st.columnBase = some 0 →
    ∃ st2, innerScan recC gridC 2048 0 (f + 1) st = .ok (st2, 0) ∧
      st2.cells.length = st.cells.length ∧
      st2.firstShowing = true ∧ st2.columnBase = some 0 := by
  intro f st hfs hcb
  rw [innerScan]
  rw [if_pos (show 2048 + 0 < gridC.childCount by simp)]
  rw [if_neg (show ¬ "showing" ∈ (gridC.childAt (2048 + 0)).desc.states by
    rw [gridC_childAt]; exact cellC_not_showing (by omega))]
  rw [if_pos (show (st.firstShowing = true ∧ st.columnBase ≠ none) ∨ (0 : Nat) ≥ 500
    from Or.inl ⟨hfs, by rw [hcb]; simp⟩)]
  exact ⟨_, rfl, by simp [stepCheck], by simpa [stepCheck] using hfs,
    by simpa [stepCheck] using hcb⟩

/-- The full paginator run on the 1025-cell grid: three rows are scanned
and 1025 cell elements are emitted. -/
theorem gridChildrenC :
    ∃ st2, gridChildren cfgOld recC gridC = .ok st2 ∧ st2.cells.length = 1025 := by
  unfold gridChildren
  rw [show (if verLt cfgOld.libreofficeVersion (7, 4) then 1024 else 16384) = 1024
    from by decide]
  rw [show MAX_ROW = ((1048573 + 1) + 1) + 1 from rfl]
  rw [rowScan]
  rw [show ({} : GridState).columnBase.getD 0 = 0 from rfl]
  rw [show (1024 : Nat) - 0 = 1023 + 1 from rfl]
  rw [innerScan]
  rw [if_pos (show 0 + 0 < gridC.childCount by simp)]
  rw [if_pos (show "showing" ∈ (gridC.childAt (0 + 0)).desc.states by
    rw [gridC_childAt]; exact cellC_showing (by omega))]
  obtain ⟨E, hE⟩ := recC_cell_ok (0 + 0)
  rw [gridC_childAt, hE]
  dsimp only
  rw [stepShowing_of_not_first (show (stepCheck {} 0).firstShowing = false from rfl) 0 E]
  obtain ⟨st0, hrun0, hlen0, hfs0, hcb0⟩ := row0C 1023 (0 + 1) { stepCheck ({} : GridState) 0 with columnBase := some 0, firstShowing := true, cells := (stepCheck ({} : GridState) 0).cells ++ [E] } (by omega) rfl
  rw [hrun0]
  dsimp only
  have hcb0v : st0.columnBase = some 0 := by rw [hcb0]
  rw [if_neg (show ¬ ((st0.firstShowing = true ∧ st0.columnBase = some 1023) ∨
      (¬ st0.firstShowing = true ∧ (0 : Nat) ≥ 500)) by
    simp [hfs0, hcb0v])]
  rw [rowScan]
  rw [show st0.columnBase.getD 0 = 0 from by rw [hcb0v]; rfl]
  rw [show (1024 : Nat) - 0 = (1022 + 1) + 1 from rfl]
  obtain ⟨st1, hrun1, hlen1, hfs1, hcb1⟩ := row1C 1022 st0 hfs0 hcb0v
  rw [show (0 : Nat) + 1024 = 1024 from rfl]
  rw [hrun1]
  dsimp only
  rw [if_neg (show ¬ ((st1.firstShowing = true ∧ st1.columnBase = some 1) ∨
      (¬ st1.firstShowing = true ∧ (0 + 1 : Nat) ≥ 500)) by
    simp [hfs1, hcb1])]
  rw [rowScan]
  rw [show st1.columnBase.getD 0 = 0 from by rw [hcb1]; rfl]
  rw [show (1024 : Nat) - 0 = 1023 + 1 from rfl]
  obtain ⟨st2, hrun2, hlen2, hfs2, hcb2⟩ := row2C 1023 st1 hfs1 hcb1
  rw [show (1024 : Nat) + 1024 = 2048 from rfl]
  rw [hrun2]
  dsimp only
  rw [if_pos (show (st2.firstShowing = true ∧ st2.columnBase = some 0) ∨
      (¬ st2.firstShowing = true ∧ (0 + 1 + 1 : Nat) ≥ 500) from Or.inl ⟨hfs2, hcb2⟩)]
  refine ⟨st2, rfl, ?_⟩
  simp [hlen2, hlen1, hlen0]

/-! ## Claim theorems -/

/-- C4 counterexample: the claim says every node of the emitted tree has
at most 1024 children, including nodes filled by the spreadsheet
paginator. On a pre-7.4 grid whose first 1025 flat cells are showing, the
expansion succeeds and the emitted table node carries 1025 children: the
paginator path is not subject to the width ceiling. -/
theorem C4_counterexample :
    (createAtspiNode cfgOld gridC 2 (some "calc")).isOk = true ∧
    (okElemA (createAtspiNode cfgOld gridC 2 (some "calc"))).children.length = 1025 ∧
    1024 < 1025 := by
  obtain ⟨st2, hgrid, hlen⟩ := gridChildrenC
  have hnode := @atspi_grid cfgOld gridC 2 (some "calc")
    rfl (by decide) (by decide)
  rw [show (fun ch => createAtspiNode cfgOld ch (2 + 1)
      (childFlag (some "calc") gridC)) = recC from rfl] at hnode
  rw [hgrid] at hnode
  refine ⟨?_, ?_, by omega⟩
  · rw [hnode]; rfl
  · rw [hnode, okElemA]
    simpa using hlen

/-- C4 amended: every emitted node sits at depth at most MAX_DEPTH = 50
from the capture root, and every node expanded through the generic
(non-paginator) child loop has at most MAX_WIDTH = 1024 children; the
paginator path is not subject to the width ceiling (see the
counterexample). -/
theorem C4_amended :
    (∀ (cfg : Config) (node : ANode) (depth : Nat) (flag : Option String) (e : Element),
      depth ≤ cfg.MAX_DEPTH → createAtspiNode cfg node depth flag = .ok e →
      elemHeight e ≤ cfg.MAX_DEPTH - depth) ∧
    (∀ (cfg : Config) (desktop : ANode) (completed : List Nat) (e : Element),
      1 ≤ cfg.MAX_DEPTH → getAccessibilityTree cfg desktop completed = .ok e →
      elemHeight e ≤ cfg.MAX_DEPTH) ∧
    (∀ (recurse : ANode → Except Unit Element) (w : Nat) (l : List ANode),
      (expandChildren recurse w l 0).length ≤ w) := by
  refine ⟨?_, ?_, ?_⟩
  · intro cfg node depth flag e hd h
    exact atspi_height cfg (cfg.MAX_DEPTH - depth) node depth flag e hd rfl h
  · intro cfg desktop completed e h1 h
    unfold getAccessibilityTree at h
    cases hc : collectResults (completed.filterMap
        (fun i => if i < desktop.childCount then
            some (createAtspiNode cfg (desktop.childAt i) 1 none) else none)) with
    | error err => rw [hc] at h; simp [Except.map] at h
    | ok apps =>
        rw [hc] at h
        simp only [Except.map] at h
        cases h
        rw [elemHeight_mk]
        have hsplit : cfg.MAX_DEPTH = (cfg.MAX_DEPTH - 1) + 1 := by omega
        rw [hsplit]
        refine elemHeightL_le_of_forall (fun app happ => ?_)
        have hmem := mem_collectResults hc app happ
        obtain ⟨i, _, hi⟩ := List.mem_filterMap.mp hmem
        by_cases hic : i < desktop.childCount
        · rw [if_pos hic] at hi
          exact atspi_height cfg (cfg.MAX_DEPTH - 1) (desktop.childAt i) 1 none app
            (by omega) rfl (Option.some.inj hi)
        · rw [if_neg hic] at hi; cases hi
  · intro recurse w l
    have := expandChildren_length_le recurse w l 0 (Nat.zero_le w)
    simpa using this

/-- C4 witness: the amended bounds evaluated at concrete captures. -/
theorem C4_witness :
    elemHeight (okElemA (createAtspiNode cfgD bareNode 1 none)) ≤ cfgD.MAX_DEPTH - 1 ∧
    elemHeight (okElemA (getAccessibilityTree cfgD demoDesktop [0, 1])) ≤ cfgD.MAX_DEPTH ∧
    (expandChildren (fun ch => createAtspiNode cfgD ch 2 none) cfgD.MAX_WIDTH
      (nativeChildren demoDesktop) 0).length ≤ cfgD.MAX_WIDTH :=
  ⟨C4_amended.1 cfgD bareNode 1 none _ (by decide) rfl,
   C4_amended.2.1 cfgD demoDesktop [0, 1] _ (by decide) rfl,
   C4_amended.2.2 (fun ch => createAtspiNode cfgD ch 2 none) cfgD.MAX_WIDTH
     (nativeChildren demoDesktop)⟩

/-! ## Evaluation lemmas for the scenario B grid (10 rows by 5 columns
on a 16384-column sheet). The row fuel is the 1048576-row constant and
the column fuel 16384, far too large to evaluate in the kernel, so the
scan is characterized by induction: each populated row emits its five
cells and stops at column 5, and row 10 stops the row loop. -/

@[simp] theorem gridB_childCount : gridB.childCount = 163841 := rfl

@[simp] theorem gridB_childAt (i : Nat) : gridB.childAt i = cellB i := rfl

theorem cellB_not_calc (i : Nat) (flag : Option String) : ¬ calcCond flag (cellB i) := by
  intro hc
  have h2 := hc.2
  simp only [cellB, ANode.desc] at h2
  exact absurd h2 (by decide)

theorem recB_cell_ok (i : Nat) : ∃ E, recB (cellB i) = .ok E := by
  unfold recB
  exact ⟨_, atspi_generic cfgD rfl (by decide) (cellB_not_calc i _)⟩

theorem cellB_showing {i : Nat} (h : i / 16384 < 10 ∧ i % 16384 < 5) :
    "showing" ∈ (cellB i).desc.states := by
  simp only [cellB, ANode.desc]
  rw [if_pos h]
  simp

theorem cellB_blank {i : Nat} (h : ¬ (i / 16384 < 10 ∧ i % 16384 < 5)) :
    "showing" ∉ (cellB i).desc.states := by
  simp only [cellB, ANode.desc]
  rw [if_neg h]
  simp

/-- One populated row r of scenario B, entered at any column clm of 0-5
with the column base already set: the scan appends the remaining showing
cells of the row and breaks at column 5. -/
theorem rowBscan : ∀ (fuel clm r : Nat) (st : GridState), r ≤ 9 → clm ≤ 5 →
    5 - clm < fuel → st.firstShowing = true → st.columnBase = some 0 →
    ∃ st2, innerScan recB gridB (16384 * r) clm fuel st = .ok (st2, 5) ∧
      st2.cells.length = st.cells.length + (5 - clm) ∧
      st2.firstShowing = true ∧ st2.columnBase = some 0 ∧
      st2.maxCol = max st.maxCol 5 := by
  intro fuel
  induction fuel with
  | zero => intro clm r st _ _ hlt _ _; omega
  | succ f ih =>
      intro clm r st hr hclm hlt hfs hcb
      rw [innerScan]
      rw [if_pos (show 16384 * r + clm < gridB.childCount by simp; omega)]
      by_cases hc5 : clm = 5
      · subst hc5
        rw [if_neg (show ¬ "showing" ∈ (gridB.childAt (16384 * r + 5)).desc.states by
          rw [gridB_childAt]; exact cellB_blank (by omega))]
        rw [if_pos (show (st.firstShowing = true ∧ st.columnBase ≠ none) ∨ (5 : Nat) ≥ 500
          from Or.inl ⟨hfs, by rw [hcb]; simp⟩)]
        refine ⟨_, rfl, by simp [stepCheck], by simpa [stepCheck] using hfs,
          by simpa [stepCheck] using hcb, ?_⟩
        simp [stepCheck]
      · rw [if_pos (show "showing" ∈ (gridB.childAt (16384 * r + clm)).desc.states by
          rw [gridB_childAt]; exact cellB_showing (by omega))]
        obtain ⟨E, hE⟩ := recB_cell_ok (16384 * r + clm)
        rw [gridB_childAt, hE]
        dsimp only
        obtain ⟨hf1, hf2, hf3, hf4⟩ := stepShowing_first_fields hfs clm E
        obtain ⟨st2, hrun, hlen, hfs2, hcb2, hmax⟩ := ih (clm + 1) r
          (stepShowing (stepCheck st clm) clm E) hr (by omega) (by omega) hf1
          (by rw [hf2, hcb])
        refine ⟨st2, hrun, ?_, hfs2, hcb2, ?_⟩
        · rw [hlen, hf3]; omega
        · rw [hmax, hf4, Nat.max_assoc]
          rw [show max clm 5 = 5 from Nat.max_eq_right (by omega)]

/-- The row loop of scenario B from any populated row r of 1-9 onward:
rows r-9 contribute five cells each and row 10 stops the loop. -/
theorem rowScanB : ∀ (fuelRows r : Nat) (st : GridState), 1 ≤ r → r ≤ 10 →
    10 - r < fuelRows → st.firstShowing = true → st.columnBase = some 0 →
    ∃ st2, rowScan recB gridB 16384 (16384 * r) r fuelRows st = .ok st2 ∧
      st2.cells.length = st.cells.length + 5 * (10 - r) ∧
      st2.columnBase = some 0 ∧ st2.maxCol = max st.maxCol (if r ≤ 9 then 5 else 0) := by
  intro fuelRows
  induction fuelRows with
  | zero => intro r st _ _ hlt _ _; omega
  | succ fr ih =>
      intro r st h1 h10 hlt hfs hcb
      rw [rowScan]
      rw [show st.columnBase.getD 0 = 0 from by rw [hcb]; rfl]
      by_cases hr10 : r = 10
      · subst hr10
        rw [show (16384 : Nat) - 0 = 16383 + 1 from rfl]
        rw [innerScan]
        rw [if_pos (show 16384 * 10 + 0 < gridB.childCount by simp)]
        rw [if_neg (show ¬ "showing" ∈ (gridB.childAt (16384 * 10 + 0)).desc.states by
          rw [gridB_childAt]; exact cellB_blank (by omega))]
        rw [if_pos (show (st.firstShowing = true ∧ st.columnBase ≠ none) ∨ (0 : Nat) ≥ 500
          from Or.inl ⟨hfs, by rw [hcb]; simp⟩)]
        dsimp only
        rw [if_pos (show ((stepCheck st 0).firstShowing = true ∧
            (stepCheck st 0).columnBase = some 0) ∨
            (¬ (stepCheck st 0).firstShowing = true ∧ 10 ≥ 500) from
          Or.inl ⟨by simpa [stepCheck] using hfs, by simpa [stepCheck] using hcb⟩)]
        refine ⟨_, rfl, by simp [stepCheck], by simpa [stepCheck] using hcb, ?_⟩
        simp [stepCheck]
      · have hr9 : r ≤ 9 := by omega
        obtain ⟨st2, hrun, hlen, hfs2, hcb2, hmax⟩ := rowBscan (16384 - 0) 0 r st hr9
          (by omega) (by omega) hfs hcb
        rw [hrun]
        dsimp only
        rw [if_neg (show ¬ ((st2.firstShowing = true ∧ st2.columnBase = some 5) ∨
            (¬ st2.firstShowing = true ∧ r ≥ 500)) by
          simp [hfs2, hcb2])]
        obtain ⟨st3, hrun3, hlen3, hcb3, hmax3⟩ := ih (r + 1) st2 (by omega) (by omega)
          (by omega) hfs2 hcb2
        rw [show (16384 : Nat) * r + 16384 = 16384 * (r + 1) from by ring]
        refine ⟨st3, hrun3, ?_, hcb3, ?_⟩
        · rw [hlen3, hlen]; omega
        · rw [hmax3, hmax]
          by_cases hrr : r + 1 ≤ 9
          · rw [if_pos hrr, if_pos hr9, Nat.max_assoc]
            simp
          · rw [if_neg hrr, if_pos hr9, Nat.max_zero]

/-- The full paginator run of scenario B: column base 0 is discovered on
the first cell, 50 cells are emitted and no column past 5 is examined. -/
theorem gridChildrenB :
    ∃ st2, gridChildren cfgD recB gridB = .ok st2 ∧ st2.cells.length = 50 ∧
      st2.columnBase = some 0 ∧ st2.maxCol = 5 := by
  unfold gridChildren
  rw [show (if verLt cfgD.libreofficeVersion (7, 4) then 1024 else 16384) = 16384
    from by decide]
  rw [show MAX_ROW = 1048575 + 1 from rfl]
  rw [rowScan]
  rw [show ({} : GridState).columnBase.getD 0 = 0 from rfl]
  rw [show (16384 : Nat) - 0 = 16383 + 1 from rfl]
  rw [innerScan]
  rw [if_pos (show 0 + 0 < gridB.childCount by simp)]
  rw [if_pos (show "showing" ∈ (gridB.childAt (0 + 0)).desc.states by
    rw [gridB_childAt]; exact cellB_showing (by omega))]
  obtain ⟨E, hE⟩ := recB_cell_ok (0 + 0)
  rw [gridB_childAt, hE]
  dsimp only
  rw [stepShowing_of_not_first (show (stepCheck {} 0).firstShowing = false from rfl) 0 E]
  obtain ⟨st0, hrun0, hlen0, hfs0, hcb0, hmax0⟩ := rowBscan 16383 (0 + 1) 0 { stepCheck ({} : GridState) 0 with columnBase := some 0, firstShowing := true, cells := (stepCheck ({} : GridState) 0).cells ++ [E] } (by omega) (by omega) (by omega) rfl rfl
  rw [show (16384 : Nat) * 0 = 0 from rfl] at hrun0
  rw [hrun0]
  dsimp only
  rw [if_neg (show ¬ ((st0.firstShowing = true ∧ st0.columnBase = some 5) ∨
      (¬ st0.firstShowing = true ∧ (0 : Nat) ≥ 500)) by
    simp [hfs0, hcb0])]
  obtain ⟨st3, hrun3, hlen3, hcb3, hmax3⟩ := rowScanB 1048575 1 st0 (by omega) (by omega)
    (by omega) hfs0 hcb0
  rw [show (16384 : Nat) * 1 = 0 + 16384 from rfl] at hrun3
  rw [show (0 : Nat) + 1 = 1 from rfl]
  rw [hrun3]
  refine ⟨st3, rfl, ?_, hcb3, ?_⟩
  · rw [hlen3, hlen0]
    simp
  · rw [hmax3, hmax0]
    simp [stepCheck]

/-- C5: on a 16384-column grid populated exactly on rows 0-9 and columns
0-4 (reached with the calc flag of the enclosing spreadsheet document),
the paginator discovers columnBase = 0, emits exactly 50 cell children,
and never examines a column past index 5, far short of the full
16384-column width. -/
theorem C5_confirmed :
    (gridChildren cfgD recB gridB).isOk = true ∧
    (okGrid (gridChildren cfgD recB gridB)).columnBase = some 0 ∧
    (okGrid (gridChildren cfgD recB gridB)).cells.length = 50 ∧
    (okGrid (gridChildren cfgD recB gridB)).maxCol = 5 ∧ 5 < 16383 ∧
    (createAtspiNode cfgD gridB 2 (some "calc")).isOk = true ∧
    (okElemA (createAtspiNode cfgD gridB 2 (some "calc"))).children.length = 50 := by
  obtain ⟨st2, hgrid, hlen, hcb, hmax⟩ := gridChildrenB
  have hnode := @atspi_grid cfgD gridB 2 (some "calc")
    rfl (by decide) (by decide)
  rw [show (fun ch => createAtspiNode cfgD ch (2 + 1)
      (childFlag (some "calc") gridB)) = recB from rfl] at hnode
  rw [hgrid] at hnode
  refine ⟨?_, ?_, ?_, ?_, by omega, ?_, ?_⟩
  · rw [hgrid]; rfl
  · rw [hgrid, okGrid]; exact hcb
  · rw [hgrid, okGrid]; exact hlen
  · rw [hgrid, okGrid]; exact hmax
  · rw [hnode]; rfl
  · rw [hnode, okElemA]
    simpa using hlen


/-! ## Geometry gating: key shapes of the attribute dict -/

theorem lookupAttr_none_of : ∀ (l : List (String × String)) (k : String),
    (∀ p ∈ l, p.1 ≠ k) → lookupAttr l k = none := by
  intro l k
  induction l with
  | nil => intro _; rfl
  | cons q rest ih =>
      intro h
      have hq : q.1 ≠ k := h q (by simp)
      simp only [lookupAttr] at ih ⊢
      rw [List.find?_cons, decide_eq_false hq]
      exact ih (fun p hp => h p (by simp [hp]))

theorem lookupAttr_true_of : ∀ (l : List (String × String)) (k : String),
    (∃ v, (k, v) ∈ l) → (∀ p ∈ l, p.1 = k → p.2 = "true") →
    lookupAttr l k = some "true" := by
  intro l k
  induction l with
  | nil =>
      intro hex _
      obtain ⟨v, hv⟩ := hex
      cases hv
  | cons q rest ih =>
      intro hex hall
      rw [lookupAttr, List.find?_cons]
      by_cases hq : q.1 = k
      · rw [decide_eq_true hq]
        simp [hall q (by simp) hq]
      · rw [decide_eq_false hq, ← lookupAttr]
        refine ih ?_ (fun p hp => hall p (by simp [hp]))
        obtain ⟨v, hv⟩ := hex
        rcases List.mem_cons.mp hv with heq | hm
        · exact absurd (congrArg Prod.fst heq).symm hq
        · exact ⟨v, hm⟩

/-- Every entry of the dict before the component block is the name, a
state entry with value true, or a raw attribute entry. -/
theorem mem_atspiDict0 {d : ADesc} {p : String × String} (hp : p ∈ atspiDict0 d) :
    p = ("name", d.name) ∨
    (∃ s, s ∈ d.states ∧ p = (clark uStateNS s, "true")) ∨
    (∃ q, q ∈ d.attributes ∧ p = (clark uAttrNS q.1, q.2)) := by
  simp only [atspiDict0, List.mem_cons, List.mem_append] at hp
  rcases hp with (rfl | hp) | hp
  · exact Or.inl rfl
  · simp only [stateAttrs, List.mem_map, List.mem_filter] at hp
    obtain ⟨s, ⟨hs, _⟩, rfl⟩ := hp
    exact Or.inr (Or.inl ⟨s, hs, rfl⟩)
  · simp only [rawAttrs, List.mem_map, List.mem_filter] at hp
    obtain ⟨q, ⟨hq, _⟩, rfl⟩ := hp
    exact Or.inr (Or.inr ⟨q, hq, rfl⟩)

theorem lookup_dict0_state_none (d : ADesc) (s0 : String) (hs : s0 ∉ d.states) :
    lookupAttr (atspiDict0 d) (clark uStateNS s0) = none := by
  refine lookupAttr_none_of _ _ ?_
  intro p hp
  rcases mem_atspiDict0 hp with rfl | ⟨s, hsm, rfl⟩ | ⟨q, hqm, rfl⟩
  · exact Ne.symm (@clark_ne_plain uStateNS s0 "name" (by decide))
  · intro hk
    exact hs ((clark_inj noBrace_uStateNS noBrace_uStateNS hk).2 ▸ hsm)
  · exact clark_ne_of_ns_ne noBrace_uAttrNS noBrace_uStateNS (by decide) _ _

theorem lookup_dict0_state_true (d : ADesc) (s0 : String) (hs : s0 ∈ d.states)
    (hne : s0.length ≠ 0) :
    lookupAttr (atspiDict0 d) (clark uStateNS s0) = some "true" := by
  refine lookupAttr_true_of _ _ ⟨"true", ?_⟩ ?_
  · simp only [atspiDict0, List.mem_cons, List.mem_append]
    refine Or.inl (Or.inr ?_)
    simp only [stateAttrs, List.mem_map, List.mem_filter]
    exact ⟨s0, ⟨hs, by simpa using hne⟩, rfl⟩
  · intro p hp hk
    rcases mem_atspiDict0 hp with rfl | ⟨s, hsm, rfl⟩ | ⟨q, hqm, rfl⟩
    · exact absurd hk (Ne.symm (@clark_ne_plain uStateNS s0 "name" (by decide)))
    · rfl
    · exact absurd hk (clark_ne_of_ns_ne noBrace_uAttrNS noBrace_uStateNS (by decide) _ _)

/-- A node lacking the visible or the showing state gets an empty
component block. -/
theorem componentAttrs_nil (d : ADesc)
    (h : "visible" ∉ d.states ∨ "showing" ∉ d.states) :
    componentAttrs d.extents (atspiDict0 d) = [] := by
  have hcond : ¬ ((lookupAttr (atspiDict0 d) (clark uStateNS "visible")).getD "false" = "true" ∧
      (lookupAttr (atspiDict0 d) (clark uStateNS "showing")).getD "false" = "true") := by
    rintro ⟨h1, h2⟩
    rcases h with hv | hsh
    · rw [lookup_dict0_state_none d _ hv] at h1
      exact absurd h1 (by decide)
    · rw [lookup_dict0_state_none d _ hsh] at h2
      exact absurd h2 (by decide)
  rw [componentAttrs.eq_def, if_neg hcond]

/-- A node with both states and a successful extents query gets exactly
the two geometry attributes. -/
theorem componentAttrs_pos (d : ADesc) (x y w h : Int)
    (hv : "visible" ∈ d.states) (hsh : "showing" ∈ d.states)
    (he : d.extents = some (x, y, w, h)) :
    componentAttrs d.extents (atspiDict0 d) =
      [(clark uCompNS "screencoord", "(" ++ toString x ++ ", " ++ toString y ++ ")"),
       (clark uCompNS "size", "(" ++ toString w ++ ", " ++ toString h ++ ")")] := by
  have h1 := lookup_dict0_state_true d "visible" hv (by decide)
  have h2 := lookup_dict0_state_true d "showing" hsh (by decide)
  rw [componentAttrs.eq_def, he, if_pos ⟨by rw [h1]; rfl, by rw [h2]; rfl⟩]

theorem mem_valueAttrs_key {v : Option AValue} {p : String × String}
    (hp : p ∈ valueAttrs v) : ∃ l, p.1 = clark uValNS l := by
  cases v with
  | none => cases hp
  | some v =>
      rcases v with ⟨c, mn, mx, stp⟩
      simp only [valueAttrs, List.mem_append] at hp
      rcases hp with ((h | h) | h) | h
      · cases c with
        | none => simp at h
        | some s =>
            rcases List.mem_cons.mp h with rfl | h2
            · exact ⟨"value", rfl⟩
            · simp at h2
      · cases mn with
        | none => simp at h
        | some s =>
            rcases List.mem_cons.mp h with rfl | h2
            · exact ⟨"min", rfl⟩
            · simp at h2
      · cases mx with
        | none => simp at h
        | some s =>
            rcases List.mem_cons.mp h with rfl | h2
            · exact ⟨"max", rfl⟩
            · simp at h2
      · cases stp with
        | none => simp at h
        | some s =>
            rcases List.mem_cons.mp h with rfl | h2
            · exact ⟨"step", rfl⟩
            · simp at h2

theorem mem_actionAttrsL_key : ∀ {acts : List AAction} {p : String × String},
    p ∈ actionAttrsL acts → ∃ l, p.1 = clark uActNS l := by
  intro acts
  induction acts with
  | nil => intro p hp; cases hp
  | cons a rest ih =>
      intro p hp
      rcases List.mem_cons.mp hp with rfl | hp2
      · exact ⟨_, rfl⟩
      · rcases List.mem_cons.mp hp2 with rfl | hp3
        · exact ⟨_, rfl⟩
        · exact ih hp3

/-- A node lacking the visible or the showing state carries no key in the
component namespace at all. -/
theorem atspiAttrs_no_comp (d : ADesc)
    (h : "visible" ∉ d.states ∨ "showing" ∉ d.states) :
    ∀ p ∈ atspiAttrs d, ∀ l, p.1 ≠ clark uCompNS l := by
  intro p hp l
  rw [atspiAttrs, componentAttrs_nil d h] at hp
  simp only [List.nil_append, List.append_nil, List.mem_append] at hp
  rcases hp with ((((hp | hp) | hp) | hp) | hp)
  · rcases mem_atspiDict0 hp with rfl | ⟨s, hsm, rfl⟩ | ⟨q, hqm, rfl⟩
    · exact Ne.symm (@clark_ne_plain uCompNS l "name" (by decide))
    · exact clark_ne_of_ns_ne noBrace_uStateNS noBrace_uCompNS (by decide) _ _
    · exact clark_ne_of_ns_ne noBrace_uAttrNS noBrace_uCompNS (by decide) _ _
  · rcases hi : d.image with _ | _ <;> rw [hi] at hp
    · simp [imageAttrs] at hp
    · simp only [imageAttrs, if_true] at hp
      rcases List.mem_cons.mp hp with rfl | h2
      · exact Ne.symm (@clark_ne_plain uCompNS l "image" (by decide))
      · simp at h2
  · rcases hi : d.selection with _ | _ <;> rw [hi] at hp
    · simp [selectionAttrs] at hp
    · simp only [selectionAttrs, if_true] at hp
      rcases List.mem_cons.mp hp with rfl | h2
      · exact Ne.symm (@clark_ne_plain uCompNS l "selection" (by decide))
      · simp at h2
  · obtain ⟨l2, hl2⟩ := mem_valueAttrs_key hp
    rw [hl2]
    exact clark_ne_of_ns_ne noBrace_uValNS noBrace_uCompNS (by decide) _ _
  · rcases ha : d.actions with _ | acts <;> rw [ha] at hp
    · simp [actionAttrs] at hp
    · simp only [actionAttrs] at hp
      obtain ⟨l2, hl2⟩ := mem_actionAttrsL_key hp
      rw [hl2]
      exact clark_ne_of_ns_ne noBrace_uActNS noBrace_uCompNS (by decide) _ _

theorem noBrace_wCompNS : noBrace wCompNS := by decide

/-- Windows emits the two geometry attributes whenever the rectangle
query succeeds, with no state condition. -/
theorem wAttrs_rect (d : WDesc) (l t w h : Int) (hr : d.rect = some (l, t, w, h)) :
    (clark wCompNS "screencoord",
      "(" ++ toString l ++ ", " ++ toString t ++ ")") ∈ wAttrs d ∧
    (clark wCompNS "size",
      "(" ++ toString w ++ ", " ++ toString h ++ ")") ∈ wAttrs d := by
  rw [wAttrs, hr]
  constructor <;> simp [wRectAttrs]

/-! ## The Windows visited-set invariant -/

/-- Handles of all successfully expanded subtrees in a completion-order
result batch. -/
def resHandles : List (Except Unit (Option Element)) → List Nat
  | [] => []
  | r :: rs =>
      (match r with | .ok (some e) => elemHandles e | _ => []) ++ resHandles rs

theorem assemble_core_sublist :
    ∀ rs : List (Except Unit (Option Element)),
    List.Sublist (elemHandlesL (((rs.map
        (fun r => match r with | .ok o => o | .error _ => none)).takeWhile
      Option.isSome).filterMap id)) (resHandles rs) := by
  intro rs
  induction rs with
  | nil => simp [resHandles, elemHandlesL]
  | cons r rs ih =>
      cases r with
      | error u =>
          simp [resHandles, List.takeWhile_cons, elemHandlesL, List.nil_sublist]
      | ok o =>
          cases o with
          | none =>
              simp [resHandles, List.takeWhile_cons, elemHandlesL, List.nil_sublist]
          | some e =>
              simp only [List.map_cons, List.takeWhile_cons, Option.isSome_some,
                if_true, List.filterMap_cons, id_eq, resHandles]
              exact (List.append_sublist_append_left _).mpr ih

/-- The children lxml accepts are drawn, in order, from the successful
results of the batch. -/
theorem assembleChildren_handles_sublist (rs : List (Except Unit (Option Element))) :
    List.Sublist (elemHandlesL (assembleChildren rs)) (resHandles rs) := by
  rw [assembleChildren]
  split
  · exact List.nil_sublist _
  · exact assemble_core_sublist rs

/-- The element a healthy Windows node is built from before children are
attached. -/
def wBase (d : WDesc) : Element :=
  Element.mk (pywinautoRoleTag d.className) (wAttrs d) (wText d) d.handle []

theorem elemHandles_wBase (d : WDesc) (c : List Element) :
    elemHandles ((wBase d).withChildren c) = d.handle :: elemHandlesL c := rfl

theorem wpn_visited {cfg : Config} {fuel : Nat} {node : WNode} {depth : Nat}
    {flag : Option String} {st : WSt} (hv : node.desc.handle ∈ st.visited) :
    createPywinautoNodeFuel cfg fuel node depth flag st = (.ok none, st) := by
  rw [createPywinautoNodeFuel]
  simp [hv]

theorem wpn_broken {cfg : Config} {fuel : Nat} {node : WNode} {depth : Nat}
    {flag : Option String} {st : WSt} (hv : node.desc.handle ∉ st.visited)
    (hb : node.desc.broken = true) :
    createPywinautoNodeFuel cfg fuel node depth flag st =
      (.error (), { st with visited := node.desc.handle :: st.visited }) := by
  rw [createPywinautoNodeFuel]
  simp [hv, hb]

theorem wpn_leafMax {cfg : Config} {fuel : Nat} {node : WNode} {depth : Nat}
    {flag : Option String} {st : WSt} (hv : node.desc.handle ∉ st.visited)
    (hb : node.desc.broken = false) (hd : depth = cfg.MAX_DEPTH) :
    createPywinautoNodeFuel cfg fuel node depth flag st =
      (.ok (some (wBase node.desc)),
       { st with visited := node.desc.handle :: st.visited }) := by
  rw [createPywinautoNodeFuel]
  simp [hv, hb, hd, wBase]

theorem wpn_leafFuel {cfg : Config} {node : WNode} {depth : Nat}
    {flag : Option String} {st : WSt} (hv : node.desc.handle ∉ st.visited)
    (hb : node.desc.broken = false) (hd : ¬ depth = cfg.MAX_DEPTH) :
    createPywinautoNodeFuel cfg 0 node depth flag st =
      (.ok (some (wBase node.desc)),
       { st with visited := node.desc.handle :: st.visited }) := by
  rw [createPywinautoNodeFuel]
  simp [hv, hb, hd, wBase]

theorem wpn_succ {cfg : Config} {fuel : Nat} {node : WNode} {depth : Nat}
    {flag : Option String} {st : WSt} (hv : node.desc.handle ∉ st.visited)
    (hb : node.desc.broken = false) (hd : ¬ depth = cfg.MAX_DEPTH) :
    createPywinautoNodeFuel cfg (fuel + 1) node depth flag st =
      ((.ok (some ((wBase node.desc).withChildren (assembleChildren
          (runChildren
            (fun ch s => createPywinautoNodeFuel cfg fuel ch (depth + 1) flag s)
            (node.children.take cfg.MAX_WIDTH)
            (st.sched.head?.getD
              (List.range (node.children.take cfg.MAX_WIDTH).length))
            { visited := node.desc.handle :: st.visited,
              sched := st.sched.tail }).1)))),
       (runChildren
          (fun ch s => createPywinautoNodeFuel cfg fuel ch (depth + 1) flag s)
          (node.children.take cfg.MAX_WIDTH)
          (st.sched.head?.getD
            (List.range (node.children.take cfg.MAX_WIDTH).length))
          { visited := node.desc.handle :: st.visited,
            sched := st.sched.tail }).2) := by
  rw [createPywinautoNodeFuel]
  simp [hv, hb, hd, wBase]

/-- Results of one completion-order batch: each is the worker function
applied to a member of the child list at some intermediate state. -/
theorem runChildren_mem (f : WNode → WSt → (Except Unit (Option Element)) × WSt)
    (kids : List WNode) : ∀ (ord : List Nat) (st : WSt)
    (r : Except Unit (Option Element)),
    r ∈ (runChildren f kids ord st).1 → ∃ ch s, ch ∈ kids ∧ r = (f ch s).1 := by
  intro ord
  induction ord with
  | nil =>
      intro st r hr
      simp [runChildren] at hr
  | cons i rest ih =>
      intro st r hr
      cases hk : kids.get? i with
      | none =>
          have hrw : runChildren f kids (i :: rest) st = runChildren f kids rest st := by
            rw [runChildren, hk]
          rw [hrw] at hr
          exact ih st r hr
      | some ch =>
          rcases hfc : f ch st with ⟨r0, st1⟩
          rcases hrc : runChildren f kids rest st1 with ⟨rs, st2⟩
          have hrw : runChildren f kids (i :: rest) st = (r0 :: rs, st2) := by
            rw [runChildren, hk]
            dsimp only
            rw [hfc]
            dsimp only
            rw [hrc]
          rw [hrw] at hr
          rcases List.mem_cons.mp hr with rfl | hr2
          · exact ⟨ch, st, List.mem_iff_get?.mpr ⟨i, hk⟩, by rw [hfc]⟩
          · refine ih st1 r ?_
            rw [hrc]
            exact hr2

theorem mem_assemble_core : ∀ {rs : List (Except Unit (Option Element))} {c : Element},
    c ∈ ((rs.map (fun r => match r with | .ok o => o | .error _ => none)).takeWhile
      Option.isSome).filterMap id → Except.ok (some c) ∈ rs := by
  intro rs
  induction rs with
  | nil =>
      intro c hc
      simp at hc
  | cons r rs ih =>
      intro c hc
      cases r with
      | error u =>
          simp [List.takeWhile_cons] at hc
      | ok o =>
          cases o with
          | none => simp [List.takeWhile_cons] at hc
          | some e =>
              simp only [List.map_cons, List.takeWhile_cons, Option.isSome_some,
                if_true, List.filterMap_cons, id_eq] at hc
              rcases List.mem_cons.mp hc with rfl | hc2
              · exact List.mem_cons_self _ _
              · exact List.mem_cons_of_mem _ (ih hc2)

/-- Every child lxml accepts is a successful result of the batch. -/
theorem mem_assembleChildren {rs : List (Except Unit (Option Element))} {c : Element}
    (hc : c ∈ assembleChildren rs) : Except.ok (some c) ∈ rs := by
  rw [assembleChildren] at hc
  split at hc
  · simp at hc
  · exact mem_assemble_core hc

/-- Whatever branch succeeds, the element of a Windows node keeps the
handle of the node it was created from. -/
theorem wpn_src (cfg : Config) : ∀ (fuel : Nat) (node : WNode) (depth : Nat)
    (flag : Option String) (st : WSt) (e : Element),
    (createPywinautoNodeFuel cfg fuel node depth flag st).1 = .ok (some e) →
    e.srcHandle = node.desc.handle := by
  intro fuel node depth flag st e he
  by_cases hv : node.desc.handle ∈ st.visited
  · rw [wpn_visited hv] at he
    simp at he
  · cases hb : node.desc.broken with
    | true =>
        rw [wpn_broken hv hb] at he
        simp at he
    | false =>
        by_cases hd : depth = cfg.MAX_DEPTH
        · rw [wpn_leafMax hv hb hd] at he
          simp only [Except.ok.injEq, Option.some.injEq] at he
          subst he
          rfl
        · cases fuel with
          | zero =>
              rw [wpn_leafFuel hv hb hd] at he
              simp only [Except.ok.injEq, Option.some.injEq] at he
              subst he
              rfl
          | succ fuel =>
              rw [wpn_succ hv hb hd] at he
              simp only [Except.ok.injEq, Option.some.injEq] at he
              subst he
              rfl

/-- Every emitted child of a Windows node is the expansion of one of the
first MAX_WIDTH native children: the retained set is drawn from
children[:MAX_WIDTH], whatever the completion order. -/
theorem wpn_children_from (cfg : Config) : ∀ (fuel : Nat) (node : WNode)
    (depth : Nat) (flag : Option String) (st : WSt) (e : Element),
    (createPywinautoNodeFuel cfg fuel node depth flag st).1 = .ok (some e) →
    ∀ c ∈ e.children, ∃ ch, ch ∈ node.children.take cfg.MAX_WIDTH ∧
      c.srcHandle = ch.desc.handle := by
  intro fuel node depth flag st e he c hc
  by_cases hv : node.desc.handle ∈ st.visited
  · rw [wpn_visited hv] at he
    simp at he
  · cases hb : node.desc.broken with
    | true =>
        rw [wpn_broken hv hb] at he
        simp at he
    | false =>
        by_cases hd : depth = cfg.MAX_DEPTH
        · rw [wpn_leafMax hv hb hd] at he
          simp only [Except.ok.injEq, Option.some.injEq] at he
          subst he
          simp [wBase] at hc
        · cases fuel with
          | zero =>
              rw [wpn_leafFuel hv hb hd] at he
              simp only [Except.ok.injEq, Option.some.injEq] at he
              subst he
              simp [wBase] at hc
          | succ fuel =>
              rw [wpn_succ hv hb hd] at he
              simp only [Except.ok.injEq, Option.some.injEq] at he
              subst he
              rw [Element.children_withChildren] at hc
              have hr := mem_assembleChildren hc
              obtain ⟨ch, s, hchm, hre⟩ := runChildren_mem _ _ _ _ _ hr
              exact ⟨ch, hchm, wpn_src cfg fuel ch (depth + 1) flag s c hre.symm⟩

/-! ## The ancestor-skip guard of the adversarial Windows traversal -/

theorem wpnR_visited {cfg : Config} {fuel : Nat} {node : WNode} {depth : Nat}
    {flag : Option String} {st : WStR}
    (hv : node.desc.handle ∈ st.adv.head?.getD [] ++ st.visited) :
    createPywinautoNodeFuelR cfg fuel node depth flag st =
      (.ok none, { st with visited := st.adv.head?.getD [] ++ st.visited, adv := st.adv.tail }) := by
  rw [createPywinautoNodeFuelR]
  simp [hv]

theorem wpnR_broken {cfg : Config} {fuel : Nat} {node : WNode} {depth : Nat}
    {flag : Option String} {st : WStR}
    (hv : node.desc.handle ∉ st.adv.head?.getD [] ++ st.visited)
    (hb : node.desc.broken = true) :
    createPywinautoNodeFuelR cfg fuel node depth flag st =
      (.error (), { st with visited := node.desc.handle :: (st.adv.head?.getD [] ++ st.visited), adv := st.adv.tail }) := by
  rw [createPywinautoNodeFuelR]
  simp [hv, hb]

theorem wpnR_leafMax {cfg : Config} {fuel : Nat} {node : WNode} {depth : Nat}
    {flag : Option String} {st : WStR}
    (hv : node.desc.handle ∉ st.adv.head?.getD [] ++ st.visited)
    (hb : node.desc.broken = false) (hd : depth = cfg.MAX_DEPTH) :
    createPywinautoNodeFuelR cfg fuel node depth flag st =
      (.ok (some (wBase node.desc)),
       { st with visited := node.desc.handle :: (st.adv.head?.getD [] ++ st.visited), adv := st.adv.tail }) := by
  rw [createPywinautoNodeFuelR]
  simp [hv, hb, hd, wBase]

theorem wpnR_leafFuel {cfg : Config} {node : WNode} {depth : Nat}
    {flag : Option String} {st : WStR}
    (hv : node.desc.handle ∉ st.adv.head?.getD [] ++ st.visited)
    (hb : node.desc.broken = false) (hd : ¬ depth = cfg.MAX_DEPTH) :
    createPywinautoNodeFuelR cfg 0 node depth flag st =
      (.ok (some (wBase node.desc)),
       { st with visited := node.desc.handle :: (st.adv.head?.getD [] ++ st.visited), adv := st.adv.tail }) := by
  rw [createPywinautoNodeFuelR]
  simp [hv, hb, hd, wBase]

theorem wpnR_succ {cfg : Config} {fuel : Nat} {node : WNode} {depth : Nat}
    {flag : Option String} {st : WStR}
    (hv : node.desc.handle ∉ st.adv.head?.getD [] ++ st.visited)
    (hb : node.desc.broken = false) (hd : ¬ depth = cfg.MAX_DEPTH) :
    createPywinautoNodeFuelR cfg (fuel + 1) node depth flag st =
      ((.ok (some ((wBase node.desc).withChildren (assembleChildren
          (runChildrenR
            (fun ch s => createPywinautoNodeFuelR cfg fuel ch (depth + 1) flag s)
            (node.children.take cfg.MAX_WIDTH)
            (st.sched.head?.getD
              (List.range (node.children.take cfg.MAX_WIDTH).length))
            { visited := node.desc.handle :: (st.adv.head?.getD [] ++ st.visited), sched := st.sched.tail, adv := st.adv.tail }).1)))),
       (runChildrenR
          (fun ch s => createPywinautoNodeFuelR cfg fuel ch (depth + 1) flag s)
          (node.children.take cfg.MAX_WIDTH)
          (st.sched.head?.getD
            (List.range (node.children.take cfg.MAX_WIDTH).length))
          { visited := node.desc.handle :: (st.adv.head?.getD [] ++ st.visited), sched := st.sched.tail, adv := st.adv.tail }).2) := by
  rw [createPywinautoNodeFuelR]
  simp [hv, hb, hd, wBase]

/-- One adversarial batch: if the worker only grows the set and never
emits a handle that was visited when it started, so does the batch. -/
theorem runChildrenR_inv (f : WNode → WStR → (Except Unit (Option Element)) × WStR)
    (kids : List WNode)
    (hf : ∀ ch s,
      (∀ h, h ∈ s.visited → h ∈ (f ch s).2.visited) ∧
      (∀ e, (f ch s).1 = .ok (some e) →
        ∀ h, h ∈ elemHandles e → h ∉ s.visited)) :
    ∀ (ord : List Nat) (st : WStR),
      (∀ h, h ∈ st.visited → h ∈ (runChildrenR f kids ord st).2.visited) ∧
      (∀ h, h ∈ resHandles (runChildrenR f kids ord st).1 → h ∉ st.visited) := by
  intro ord
  induction ord with
  | nil =>
      intro st
      refine ⟨fun h hh => hh, ?_⟩
      intro h hh
      simp [runChildrenR, resHandles] at hh
  | cons i rest ih =>
      intro st
      cases hk : kids.get? i with
      | none =>
          have hrw : runChildrenR f kids (i :: rest) st = runChildrenR f kids rest st := by
            rw [runChildrenR, hk]
          rw [hrw]
          exact ih st
      | some ch =>
          rcases hfc : f ch st with ⟨r, st1⟩
          rcases hrc : runChildrenR f kids rest st1 with ⟨rs, st2⟩
          have hrw : runChildrenR f kids (i :: rest) st = (r :: rs, st2) := by
            rw [runChildrenR, hk]
            dsimp only
            rw [hfc]
            dsimp only
            rw [hrc]
          rw [hrw]
          have hf1 := (hf ch st).1
          have hf2 := (hf ch st).2
          rw [hfc] at hf1 hf2
          have ih1 := (ih st1).1
          have ih2 := (ih st1).2
          rw [hrc] at ih1 ih2
          refine ⟨fun h hh => ih1 h (hf1 h hh), ?_⟩
          intro h hh
          cases r with
          | error u =>
              simp only [resHandles, List.nil_append] at hh
              exact fun hst => ih2 h hh (hf1 h hst)
          | ok o =>
              cases o with
              | none =>
                  simp only [resHandles, List.nil_append] at hh
                  exact fun hst => ih2 h hh (hf1 h hst)
              | some e =>
                  simp only [resHandles] at hh
                  rcases List.mem_append.mp hh with h1 | h2
                  · exact hf2 e rfl h h1
                  · exact fun hst => ih2 h h2 (hf1 h hst)

/-- The race-robust guard: under every injection stream, the visited set
only grows, and no handle visited at call entry ever appears in the
emitted subtree: a descendant repeating an already-visited ancestor
handle is skipped, whatever the other threads insert. -/
theorem wpnR_inv (cfg : Config) (fuel : Nat) :
    ∀ (node : WNode) (depth : Nat) (flag : Option String) (st : WStR),
    (∀ h, h ∈ st.visited →
        h ∈ (createPywinautoNodeFuelR cfg fuel node depth flag st).2.visited) ∧
    (∀ e, (createPywinautoNodeFuelR cfg fuel node depth flag st).1 = .ok (some e) →
      ∀ h, h ∈ elemHandles e → h ∉ st.visited) := by
  induction fuel with
  | zero =>
      intro node depth flag st
      by_cases hv : node.desc.handle ∈ st.adv.head?.getD [] ++ st.visited
      · rw [wpnR_visited hv]
        exact ⟨fun h hh => List.mem_append_right _ hh, fun e he => by simp at he⟩
      · cases hb : node.desc.broken with
        | true =>
            rw [wpnR_broken hv hb]
            exact ⟨fun h hh => List.mem_cons_of_mem _ (List.mem_append_right _ hh),
              fun e he => by simp at he⟩
        | false =>
            by_cases hd : depth = cfg.MAX_DEPTH
            · rw [wpnR_leafMax hv hb hd]
              refine ⟨fun h hh => List.mem_cons_of_mem _ (List.mem_append_right _ hh), ?_⟩
              intro e he
              simp only [Except.ok.injEq, Option.some.injEq] at he
              subst he
              intro h hh
              simp [wBase, elemHandles, elemHandlesL] at hh
              subst hh
              exact fun hst => hv (List.mem_append_right _ hst)
            · rw [wpnR_leafFuel hv hb hd]
              refine ⟨fun h hh => List.mem_cons_of_mem _ (List.mem_append_right _ hh), ?_⟩
              intro e he
              simp only [Except.ok.injEq, Option.some.injEq] at he
              subst he
              intro h hh
              simp [wBase, elemHandles, elemHandlesL] at hh
              subst hh
              exact fun hst => hv (List.mem_append_right _ hst)
  | succ fuel ih =>
      intro node depth flag st
      by_cases hv : node.desc.handle ∈ st.adv.head?.getD [] ++ st.visited
      · rw [wpnR_visited hv]
        exact ⟨fun h hh => List.mem_append_right _ hh, fun e he => by simp at he⟩
      · cases hb : node.desc.broken with
        | true =>
            rw [wpnR_broken hv hb]
            exact ⟨fun h hh => List.mem_cons_of_mem _ (List.mem_append_right _ hh),
              fun e he => by simp at he⟩
        | false =>
            by_cases hd : depth = cfg.MAX_DEPTH
            · rw [wpnR_leafMax hv hb hd]
              refine ⟨fun h hh => List.mem_cons_of_mem _ (List.mem_append_right _ hh), ?_⟩
              intro e he
              simp only [Except.ok.injEq, Option.some.injEq] at he
              subst he
              intro h hh
              simp [wBase, elemHandles, elemHandlesL] at hh
              subst hh
              exact fun hst => hv (List.mem_append_right _ hst)
            · rw [wpnR_succ hv hb hd]
              have hrc := runChildrenR_inv
                (fun ch s => createPywinautoNodeFuelR cfg fuel ch (depth + 1) flag s)
                (node.children.take cfg.MAX_WIDTH)
                (fun ch s => ih ch (depth + 1) flag s)
                (st.sched.head?.getD
                  (List.range (node.children.take cfg.MAX_WIDTH).length))
                { visited := node.desc.handle :: (st.adv.head?.getD [] ++ st.visited), sched := st.sched.tail, adv := st.adv.tail }
              refine ⟨fun h hh =>
                hrc.1 h (List.mem_cons_of_mem _ (List.mem_append_right _ hh)), ?_⟩
              intro e he
              simp only [Except.ok.injEq, Option.some.injEq] at he
              subst he
              rw [elemHandles_wBase]
              intro h hh
              rcases List.mem_cons.mp hh with rfl | hh2
              · exact fun hst => hv (List.mem_append_right _ hst)
              · have hsub := assembleChildren_handles_sublist
                  (runChildrenR
                    (fun ch s => createPywinautoNodeFuelR cfg fuel ch (depth + 1) flag s)
                    (node.children.take cfg.MAX_WIDTH)
                    (st.sched.head?.getD
                      (List.range (node.children.take cfg.MAX_WIDTH).length))
                    { visited := node.desc.handle :: (st.adv.head?.getD [] ++ st.visited), sched := st.sched.tail, adv := st.adv.tail }).1
                have hguard := hrc.2 h (hsub.subset hh2)
                exact fun hst =>
                  hguard (List.mem_cons_of_mem _ (List.mem_append_right _ hst))

/-! ## The children equation shared by the ordering, error-locality and
width claims. -/

theorem isSome_toOption {α : Type} (r : Except Unit α) :
    (r.toOption).isSome = r.isOk := by
  cases r with
  | ok a => rfl
  | error e => rfl

/-- Below the depth ceiling, the children of a healthy non-grid node are
exactly the expansions of the longest successfully expanding prefix of
the first MAX_WIDTH native children, in native enumeration order. -/
theorem atspi_children_eq (cfg : Config) {node : ANode} {depth : Nat}
    {flag : Option String} {e : Element}
    (hb : node.desc.broken = false) (hd : depth < cfg.MAX_DEPTH)
    (hng : ¬ calcCond flag node)
    (h : createAtspiNode cfg node depth flag = .ok e) :
    e.children = (((nativeChildren node).take cfg.MAX_WIDTH).takeWhile
        (fun ch => (createAtspiNode cfg ch (depth + 1) (childFlag flag node)).isOk)).filterMap
      (fun ch => (createAtspiNode cfg ch (depth + 1) (childFlag flag node)).toOption) := by
  rw [atspi_generic cfg hb hd hng] at h
  cases h
  rw [Element.children_withChildren]
  rw [expandChildren_eq _ cfg.MAX_WIDTH (nativeChildren node) 0 (Nat.zero_le _)]
  simp

/-- C2 counterexample: the claim says children order always equals native
enumeration order regardless of worker completion order. A desktop with
two applications enumerated handle 10 then handle 11, whose futures
complete in the order second-first, produces a capture whose root
children are ordered handle 11 then handle 10. -/
theorem C2_counterexample :
    [1, 0].Perm (List.range 2) ∧
    (nativeChildren demoDesktop).map (fun n => n.desc.handle) = [10, 11] ∧
    (getAccessibilityTree cfgD demoDesktop [1, 0]).isOk = true ∧
    (okElemA (getAccessibilityTree cfgD demoDesktop [1, 0])).children.map
      Element.srcHandle = [11, 10] ∧
    ([11, 10] : List Nat) ≠ [10, 11] := by
  refine ⟨by decide, by decide, by decide, by decide, by decide⟩

/-- C2 amended: within the sequential per-node expansion of
_create_atspi_node, emitted children do follow native enumeration order
(they are the expansions of the successfully expanding prefix of the
first MAX_WIDTH children); the ordering claim fails only where futures
are gathered with as_completed, namely the top-level children of
get_accessibility_tree (see the counterexample) and the Windows
traversal. -/
theorem C2_amended : ∀ (cfg : Config) (node : ANode) (depth : Nat)
    (flag : Option String) (e : Element),
    node.desc.broken = false → depth < cfg.MAX_DEPTH → ¬ calcCond flag node →
    createAtspiNode cfg node depth flag = .ok e →
    e.children = (((nativeChildren node).take cfg.MAX_WIDTH).takeWhile
        (fun ch => (createAtspiNode cfg ch (depth + 1) (childFlag flag node)).isOk)).filterMap
      (fun ch => (createAtspiNode cfg ch (depth + 1) (childFlag flag node)).toOption) :=
  fun cfg node depth flag e hb hd hng h => atspi_children_eq cfg hb hd hng h

/-- C2 witness: the order-preserving children equation evaluated on a
four-child panel with a width ceiling of three. -/
theorem C2_witness :
    (okElemA (createAtspiNode cfgW3 fourKids 1 none)).children =
      (((nativeChildren fourKids).take cfgW3.MAX_WIDTH).takeWhile
          (fun ch => (createAtspiNode cfgW3 ch (1 + 1) (childFlag none fourKids)).isOk)).filterMap
        (fun ch => (createAtspiNode cfgW3 ch (1 + 1) (childFlag none fourKids)).toOption) :=
  C2_amended cfgW3 fourKids 1 none _ rfl (by decide) (by decide) rfl

/-- C3 counterexample: the claim says a native failure while expanding one
child leaves all sibling subtrees in the output. In a three-child panel
whose middle child raises on description, the capture succeeds but only
the first sibling (handle 21) is emitted: the healthy third sibling
(handle 23, whose own expansion succeeds) is dropped because the
try/except wraps the whole child loop. -/
theorem C3_counterexample :
    (createAtspiNode cfgD brokeMid 1 none).isOk = true ∧
    (okElemA (createAtspiNode cfgD brokeMid 1 none)).children.map
      Element.srcHandle = [21] ∧
    (nativeChildren brokeMid).length = 3 ∧
    (createAtspiNode cfgD (brokeMid.childAt 2) 2 none).isOk = true ∧
    (createAtspiNode cfgD (brokeMid.childAt 1) 2 none).isOk = false := by
  refine ⟨by decide, by decide, by decide, by decide, by decide⟩

/-- C3 amended: when expanding child j of a healthy non-grid node raises
and the children before it expand successfully, the node is still emitted
and the capture continues, but its children are exactly the expansions of
the first j children: the failing child and every later sibling are
omitted. -/
theorem C3_amended : ∀ (cfg : Config) (node : ANode) (depth : Nat)
    (flag : Option String) (e : Element) (j : Nat),
    node.desc.broken = false → depth < cfg.MAX_DEPTH → ¬ calcCond flag node →
    j < cfg.MAX_WIDTH → j < node.childCount →
    (∀ i, i < j →
      (createAtspiNode cfg (node.childAt i) (depth + 1) (childFlag flag node)).isOk = true) →
    (createAtspiNode cfg (node.childAt j) (depth + 1) (childFlag flag node)).isOk = false →
    createAtspiNode cfg node depth flag = .ok e →
    e.children = ((nativeChildren node).take j).filterMap
      (fun ch => (createAtspiNode cfg ch (depth + 1) (childFlag flag node)).toOption) ∧
    e.children.length = j := by
  intro cfg node depth flag e j hb hd hng hjw hjc hpre hj h
  have hch := atspi_children_eq cfg hb hd hng h
  have htw : ((nativeChildren node).take cfg.MAX_WIDTH).takeWhile
      (fun ch => (createAtspiNode cfg ch (depth + 1) (childFlag flag node)).isOk) =
      ((nativeChildren node).take cfg.MAX_WIDTH).take j := by
    refine takeWhile_eq_take_of ?_ ?_
    · intro i hi x hx
      rw [List.get?_take (by omega)] at hx
      rw [nativeChildren_get? (by omega)] at hx
      cases hx
      exact hpre i hi
    · intro x hx
      rw [List.get?_take hjw] at hx
      rw [nativeChildren_get? hjc] at hx
      cases hx
      exact hj
  have htt : ((nativeChildren node).take cfg.MAX_WIDTH).take j =
      (nativeChildren node).take j := by
    rw [List.take_take]
    rw [Nat.min_eq_left (by omega)]
  rw [hch, htw, htt]
  refine ⟨rfl, ?_⟩
  rw [length_filterMap_of_isSome ?_]
  · rw [List.length_take, nativeChildren_length, Nat.min_eq_left (by omega)]
  · intro x hx
    obtain ⟨i, hi⟩ := List.mem_iff_get?.mp hx
    have hilt : i < j := by
      have := List.get?_eq_some.mp hi
      have hlen := this.1
      rw [List.length_take, nativeChildren_length] at hlen
      omega
    rw [List.get?_take hilt, nativeChildren_get? (by omega)] at hi
    cases hi
    rw [isSome_toOption]
    exact hpre i hilt

/-- C3 witness: the locality equation evaluated on the broken-middle
panel: the one sibling before the failing child is kept. -/
theorem C3_witness :
    (okElemA (createAtspiNode cfgD brokeMid 1 none)).children =
      ((nativeChildren brokeMid).take 1).filterMap
        (fun ch => (createAtspiNode cfgD ch (1 + 1) (childFlag none brokeMid)).toOption) ∧
    (okElemA (createAtspiNode cfgD brokeMid 1 none)).children.length = 1 :=
  C3_amended cfgD brokeMid 1 none _ 1 rfl (by decide) (by decide) (by decide) (by decide)
    (fun i hi => by
      have hi0 : i = 0 := by omega
      subst hi0
      decide)
    (by decide) rfl

/-- C7 counterexample: the claim says that whenever a node has more
native children than the width ceiling, the emitted children are exactly
the first MAX_WIDTH by native enumeration order, unconditionally. On
Linux a native failure on any of the first MAX_WIDTH children truncates
the output further: a five-child panel under a ceiling of three whose
second child raises emits one child, not three. On Windows the first
MAX_WIDTH children are taken but appended in worker completion order: a
four-pane window under a ceiling of three whose futures finish in
reverse yields handles (43, 42, 41), not (41, 42, 43). -/
theorem C7_counterexample :
    (cfgW3.MAX_WIDTH < fiveKids.childCount ∧
     (createAtspiNode cfgW3 fiveKids 1 none).isOk = true ∧
     (okElemA (createAtspiNode cfgW3 fiveKids 1 none)).children.map
        Element.srcHandle = [90] ∧
     ((nativeChildren fiveKids).take cfgW3.MAX_WIDTH).length = 3 ∧
     (1 : Nat) ≠ 3) ∧
    (cfgW3.MAX_WIDTH < wParent4.children.length ∧
     ((createPywinautoNode cfgW3 wParent4 0 none { visited := [], sched := [[2, 1, 0]] }).1).isOk = true ∧
     (okOptElem (createPywinautoNode cfgW3 wParent4 0 none { visited := [], sched := [[2, 1, 0]] }).1).children.map
        Element.srcHandle = [43, 42, 41] ∧
     ([43, 42, 41] : List Nat) ≠ [41, 42, 43]) := by
  refine ⟨⟨by decide, by decide, by decide, by decide, by decide⟩,
    ⟨by decide, by decide, by decide, by decide⟩⟩

/-- C7 amended: on Linux, when the first MAX_WIDTH children all expand
successfully, the emitted children are exactly the expansions of the
first MAX_WIDTH children in native enumeration order (a failure instead
truncates to the prefix before it, as the error-locality theorem
records). On Windows the emitted children are always drawn from the
first MAX_WIDTH native children, but in worker completion order. -/
theorem C7_amended :
    (∀ (cfg : Config) (node : ANode) (depth : Nat) (flag : Option String)
        (e : Element),
      node.desc.broken = false → depth < cfg.MAX_DEPTH → ¬ calcCond flag node →
      cfg.MAX_WIDTH < node.childCount →
      (∀ ch ∈ (nativeChildren node).take cfg.MAX_WIDTH,
        (createAtspiNode cfg ch (depth + 1) (childFlag flag node)).isOk = true) →
      createAtspiNode cfg node depth flag = .ok e →
      e.children = ((nativeChildren node).take cfg.MAX_WIDTH).filterMap
        (fun ch => (createAtspiNode cfg ch (depth + 1) (childFlag flag node)).toOption) ∧
      e.children.length = cfg.MAX_WIDTH) ∧
    (∀ (cfg : Config) (wnode : WNode) (depth : Nat) (flag : Option String)
        (st : WSt) (e : Element),
      (createPywinautoNode cfg wnode depth flag st).1 = .ok (some e) →
      ∀ c ∈ e.children, ∃ ch, ch ∈ wnode.children.take cfg.MAX_WIDTH ∧
        c.srcHandle = ch.desc.handle) := by
  constructor
  · intro cfg node depth flag e hb hd hng hwide hall h
    have hch := atspi_children_eq cfg hb hd hng h
    rw [takeWhile_eq_self_of hall] at hch
    refine ⟨hch, ?_⟩
    rw [hch, length_filterMap_of_isSome ?_]
    · rw [List.length_take, nativeChildren_length, Nat.min_eq_left (by omega)]
    · intro x hx
      rw [isSome_toOption]
      exact hall x hx
  · intro cfg wnode depth flag st e he c hc
    exact wpn_children_from cfg (cfg.MAX_DEPTH - depth) wnode depth flag st e he c hc

/-- C7 witness: the Linux equation on a four-child panel with width
ceiling three, and the Windows drawn-from property on the four-pane
window. -/
theorem C7_witness :
    ((okElemA (createAtspiNode cfgW3 fourKids 1 none)).children =
        ((nativeChildren fourKids).take cfgW3.MAX_WIDTH).filterMap
          (fun ch => (createAtspiNode cfgW3 ch (1 + 1) (childFlag none fourKids)).toOption) ∧
      (okElemA (createAtspiNode cfgW3 fourKids 1 none)).children.length = cfgW3.MAX_WIDTH) ∧
    (∀ c ∈ (okOptElem (createPywinautoNode cfgW3 wParent4 0 none {}).1).children,
      ∃ ch, ch ∈ wParent4.children.take cfgW3.MAX_WIDTH ∧
        c.srcHandle = ch.desc.handle) :=
  ⟨C7_amended.1 cfgW3 fourKids 1 none _ rfl (by decide) (by decide) (by decide)
    (by decide) rfl,
   C7_amended.2 cfgW3 wParent4 0 none {} _ rfl⟩

/-- C1 counterexample: the claim says every capture visits each native
handle identity at most once and skips re-expansion when a descendant
repeats an ancestor handle. The Linux traversal _create_atspi_node keeps
no visited set at all: a panel whose child carries the panel handle 7 is
captured successfully with handle 7 occurring twice in the emitted tree.
-/
theorem C1_counterexample :
    (createAtspiNode cfgD cyc 0 none).isOk = true ∧
    elemHandles (okElemA (createAtspiNode cfgD cyc 0 none)) = [7, 7] ∧
    ¬ (elemHandles (okElemA (createAtspiNode cfgD cyc 0 none))).Nodup := by
  refine ⟨by decide, by decide, by decide⟩

/-- C1 amended: the Windows traversal guards against re-entrant
ancestors, and the guard is robust to every interleaving of the shared
visited set: under an arbitrary stream of foreign insertions joining the
set before every membership check, a call on a handle already visited at
entry is skipped (returns None), and no handle visited at entry ever
appears in the emitted subtree. The source set only grows and each
insert causally precedes the checks of the descendants spawned after it,
so this is exactly the claim cycle-guard. Global at-most-once over the
whole capture is not guaranteed by the code: the check-then-add is
unsynchronized, so two concurrently running tasks can both pass the
membership check for one handle and both expand it. On Linux there is no
visited set at all (see the counterexample). -/
theorem C1_amended : ∀ (cfg : Config) (node : WNode) (depth : Nat)
    (flag : Option String) (st : WStR),
    (node.desc.handle ∈ st.visited →
      (createPywinautoNodeR cfg node depth flag st).1 = .ok none) ∧
    (∀ e, (createPywinautoNodeR cfg node depth flag st).1 = .ok (some e) →
      ∀ h, h ∈ elemHandles e → h ∉ st.visited) := by
  intro cfg node depth flag st
  constructor
  · intro hv
    show (createPywinautoNodeFuelR cfg (cfg.MAX_DEPTH - depth) node depth flag st).1 = .ok none
    rw [wpnR_visited (List.mem_append_right _ hv)]
  · intro e he
    exact (wpnR_inv cfg (cfg.MAX_DEPTH - depth) node depth flag st).2 e he

/-- C1 witness: the two-pane window, skipped when its handle is already
visited even while a foreign insertion lands, and expanded from a
visited set holding an unrelated handle under foreign insertions: no
entry-visited handle appears in the subtree. -/
theorem C1_witness :
    (createPywinautoNodeR cfgD wParent 0 none { visited := [40], sched := [], adv := [[7]] }).1 = .ok none ∧
    (∀ h, h ∈ elemHandles (okOptElem
        (createPywinautoNodeR cfgD wParent 0 none { visited := [99], sched := [], adv := [[101], [102], [103]] }).1) →
      h ∉ ({ visited := [99], sched := [], adv := [[101], [102], [103]] } : WStR).visited) :=
  ⟨(C1_amended cfgD wParent 0 none { visited := [40], sched := [], adv := [[7]] }).1 (by decide),
   (C1_amended cfgD wParent 0 none { visited := [99], sched := [], adv := [[101], [102], [103]] }).2
     (okOptElem (createPywinautoNodeR cfgD wParent 0 none { visited := [99], sched := [], adv := [[101], [102], [103]] }).1) rfl⟩

/-- C6 counterexample: the claim says geometry is emitted only when the
state set includes both visible and showing, citing both traversals. The
Windows traversal emits the two geometry attributes whenever the
rectangle query succeeds, with no state condition at all: a pane with an
empty state set still carries cp:screencoord and cp:size. -/
theorem C6_counterexample :
    wNoState.desc.states = [] ∧
    ((createPywinautoNode cfgD wNoState 0 none {}).1).isOk = true ∧
    lookupAttr (okElemW (createPywinautoNode cfgD wNoState 0 none {})).attrs
      (clark wCompNS "screencoord") = some "(3, 4)" ∧
    lookupAttr (okElemW (createPywinautoNode cfgD wNoState 0 none {})).attrs
      (clark wCompNS "size") = some "(10, 20)" := by
  refine ⟨rfl, by decide, by decide, by decide⟩

/-- C6 amended: the gating holds on Linux: an emitted node whose states
include both visible and showing (and whose extents query succeeds)
carries the two geometry attributes, and a node lacking either state
carries no key in the component namespace at all. On Windows the two
geometry attributes are emitted whenever the rectangle query succeeds,
regardless of states. -/
theorem C6_amended :
    (∀ (cfg : Config) (node : ANode) (depth : Nat) (flag : Option String)
        (e : Element) (x y w h : Int),
      createAtspiNode cfg node depth flag = .ok e →
      (("visible" ∈ node.desc.states ∧ "showing" ∈ node.desc.states ∧
          node.desc.extents = some (x, y, w, h)) →
        (clark uCompNS "screencoord",
          "(" ++ toString x ++ ", " ++ toString y ++ ")") ∈ e.attrs ∧
        (clark uCompNS "size",
          "(" ++ toString w ++ ", " ++ toString h ++ ")") ∈ e.attrs) ∧
      (("visible" ∉ node.desc.states ∨ "showing" ∉ node.desc.states) →
        ∀ p ∈ e.attrs, ∀ l, p.1 ≠ clark uCompNS l)) ∧
    (∀ (d : WDesc) (l t w h : Int), d.rect = some (l, t, w, h) →
      (clark wCompNS "screencoord",
        "(" ++ toString l ++ ", " ++ toString t ++ ")") ∈ wAttrs d ∧
      (clark wCompNS "size",
        "(" ++ toString w ++ ", " ++ toString h ++ ")") ∈ wAttrs d) := by
  constructor
  · intro cfg node depth flag e x y w h he
    have hsh := @atspi_ok_shape cfg (cfg.MAX_DEPTH - depth) node depth flag e he
    have hattrs : e.attrs = atspiAttrs node.desc := hsh.2.1
    constructor
    · rintro ⟨hv, hs2, hext⟩
      rw [hattrs, atspiAttrs, componentAttrs_pos node.desc x y w h hv hs2 hext]
      constructor
      · simp
      · simp
    · intro hvs p hp l
      rw [hattrs] at hp
      exact atspiAttrs_no_comp node.desc hvs p hp l
  · exact fun d l t w h hr => wAttrs_rect d l t w h hr

/-- C6 witness: the Linux gating instantiated at a visible, showing leaf
with extents (1, 2, 30, 40), and the Windows emission at the stateless
pane with rectangle (3, 4, 10, 20). -/
theorem C6_witness :
    ((clark uCompNS "screencoord",
        "(" ++ toString (1 : Int) ++ ", " ++ toString (2 : Int) ++ ")") ∈
      (okElemA (createAtspiNode cfgD geomNode 0 none)).attrs ∧
     (clark uCompNS "size",
        "(" ++ toString (30 : Int) ++ ", " ++ toString (40 : Int) ++ ")") ∈
      (okElemA (createAtspiNode cfgD geomNode 0 none)).attrs) ∧
    ((clark wCompNS "screencoord",
        "(" ++ toString (3 : Int) ++ ", " ++ toString (4 : Int) ++ ")") ∈
      wAttrs wNoStateDesc ∧
     (clark wCompNS "size",
        "(" ++ toString (10 : Int) ++ ", " ++ toString (20 : Int) ++ ")") ∈
      wAttrs wNoStateDesc) :=
  ⟨(C6_amended.1 cfgD geomNode 0 none
      (okElemA (createAtspiNode cfgD geomNode 0 none)) 1 2 30 40 rfl).1
    ⟨by decide, by decide, rfl⟩,
   C6_amended.2 wNoStateDesc 3 4 10 20 rfl⟩


/-! ## Tag sanitization, optional interfaces, and the unused call budget -/

/-- The Windows tag always starts with an alphabetic character: a blank
sanitized class falls back to unknown, and a non-alphabetic head gets the
marker prepended. -/
theorem pywinautoRoleTag_head (className : String) :
    ∃ c rest, (pywinautoRoleTag className).data = c :: rest ∧ c.isAlpha = true := by
  rw [pywinautoRoleTag.eq_def]
  dsimp only
  generalize String.mk ((mapReplace ' ' '-' (pyLower className)).data.map
    (fun c => if c.isAlphanum ∨ c = '_' ∨ c = '-' then c else '-')) = s
  by_cases hstrip : pyStrip s = ""
  · rw [if_pos hstrip]
    exact ⟨'u', ['n', 'k', 'n', 'o', 'w', 'n'], by decide⟩
  · rw [if_neg hstrip]
    cases hd : s.data with
    | nil =>
        exfalso
        apply hstrip
        have hse : s = "" := String.eq_of_data_eq (by rw [hd])
        rw [hse]
        rfl
    | cons c2 tl =>
        dsimp only
        by_cases hca : c2.isAlpha = true
        · rw [if_neg (not_not_intro hca)]
          exact ⟨c2, tl, hd, hca⟩
        · rw [if_pos hca]
          refine ⟨'t', 'a' :: 'g' :: s.data, ?_, by decide⟩
          rw [String.data_append]
          rfl

theorem mem_componentAttrs_key : ∀ {ext : Option (Int × Int × Int × Int)}
    {dict : List (String × String)} {p : String × String},
    p ∈ componentAttrs ext dict → ∃ l, p.1 = clark uCompNS l := by
  intro ext dict p hp
  rw [componentAttrs.eq_def] at hp
  split at hp
  · cases ext with
    | none => simp at hp
    | some q =>
        rcases q with ⟨x, y, w, h⟩
        rcases List.mem_cons.mp hp with rfl | hp2
        · exact ⟨"screencoord", rfl⟩
        · rcases List.mem_cons.mp hp2 with rfl | hp3
          · exact ⟨"size", rfl⟩
          · simp at hp3
  · simp at hp

/-- The MAX_CALLS field is never consulted by the Linux traversal: the
result is invariant under replacing it. -/
theorem atspi_calls_invariant (cfg : Config) (n : Nat) : ∀ (fuel : Nat)
    (node : ANode) (depth : Nat) (flag : Option String),
    createAtspiNodeFuel { cfg with MAX_CALLS := n } fuel node depth flag =
      createAtspiNodeFuel cfg fuel node depth flag := by
  intro fuel
  induction fuel with
  | zero => intro node depth flag; rfl
  | succ fuel ih =>
      intro node depth flag
      have hrec : (fun ch => createAtspiNodeFuel { cfg with MAX_CALLS := n } fuel ch
          (depth + 1) (updateFlag flag (pyStrip node.desc.roleName) node.desc.name)) =
          (fun ch => createAtspiNodeFuel cfg fuel ch
          (depth + 1) (updateFlag flag (pyStrip node.desc.roleName) node.desc.name)) :=
        funext (fun ch => ih ch (depth + 1) _)
      have hgrid : gridChildren { cfg with MAX_CALLS := n } = gridChildren cfg := rfl
      conv_lhs => rw [createAtspiNodeFuel]
      conv_rhs => rw [createAtspiNodeFuel]
      dsimp only
      rw [hrec, hgrid]

/-- The MAX_CALLS field is never consulted by the Windows traversal
either. -/
theorem wpn_calls_invariant (cfg : Config) (n : Nat) : ∀ (fuel : Nat)
    (wnode : WNode) (wdepth : Nat) (flag : Option String) (wst : WSt),
    createPywinautoNodeFuel { cfg with MAX_CALLS := n } fuel wnode wdepth flag wst =
      createPywinautoNodeFuel cfg fuel wnode wdepth flag wst := by
  intro fuel
  induction fuel with
  | zero => intro wnode wdepth flag wst; rfl
  | succ fuel ih =>
      intro wnode wdepth flag wst
      have hrec : (fun ch s => createPywinautoNodeFuel { cfg with MAX_CALLS := n }
          fuel ch (wdepth + 1) flag s) =
          (fun ch s => createPywinautoNodeFuel cfg fuel ch (wdepth + 1) flag s) :=
        funext (fun ch => funext (fun s => ih ch (wdepth + 1) flag s))
      conv_lhs => rw [createPywinautoNodeFuel]
      conv_rhs => rw [createPywinautoNodeFuel]
      dsimp only
      rw [hrec]

/-- C8 counterexample: the claim says a role whose first character is not
alphabetic gets a fixed marker prefixed, citing all three platforms. The
Linux tag builder only strips, falls back to unknown and hyphenates: the
role 123 abc is emitted as the tag 123-abc, which starts with a digit and
carries no marker. -/
theorem C8_counterexample :
    (createAtspiNode cfgD digitRole 0 none).isOk = true ∧
    (okElemA (createAtspiNode cfgD digitRole 0 none)).tag = "123-abc" ∧
    (okElemA (createAtspiNode cfgD digitRole 0 none)).tag.data.head? = some '1' ∧
    '1'.isAlpha = false := by
  refine ⟨by decide, by decide, by decide, by decide⟩

/-- C8 amended: the full sanitization (hyphens, unknown fallback, marker
prefix guaranteeing an alphabetic head) holds on Windows; Linux hyphenates
and falls back to unknown but never prefixes a marker; macOS replaces
spaces with underscores and uses unknown_role. -/
theorem C8_amended :
    (∀ className : String, ∃ c rest,
      (pywinautoRoleTag className).data = c :: rest ∧ c.isAlpha = true) ∧
    pywinautoRoleTag "" = "unknown" ∧
    pywinautoRoleTag "My Pane" = "my-pane" ∧
    pywinautoRoleTag "2D Pane" = "tag2d-pane" ∧
    atspiRoleTag "push button" = "push-button" ∧
    atspiRoleTag "   " = "unknown" ∧
    axuiRoleTag none = "unknown_role" ∧
    axuiRoleTag (some "push button") = "push_button" :=
  ⟨pywinautoRoleTag_head, by decide, by decide, by decide, by decide,
   by decide, by decide, by decide⟩

/-- C9: a healthy node below the depth ceiling whose optional interfaces
(text, image, selection, value, actions) are all absent is still emitted:
the body is empty and the name attribute survives, with no image,
selection, value-namespace or action-namespace entries. -/
theorem C9_confirmed : ∀ (cfg : Config) (node : ANode) (depth : Nat)
    (flag : Option String),
    node.desc.broken = false → depth < cfg.MAX_DEPTH → ¬ calcCond flag node →
    node.desc.text = none → node.desc.image = false →
    node.desc.selection = false → node.desc.value = none →
    node.desc.actions = none →
    ∃ e, createAtspiNode cfg node depth flag = .ok e ∧
      e.body = "" ∧ ("name", node.desc.name) ∈ e.attrs ∧
      (∀ p ∈ e.attrs, p.1 ≠ "image" ∧ p.1 ≠ "selection" ∧
        (∀ l, p.1 ≠ clark uValNS l) ∧ (∀ l, p.1 ≠ clark uActNS l)) := by
  intro cfg node depth flag hb hd hng ht hi hsel hv ha
  refine ⟨_, atspi_generic cfg hb hd hng, ?_, ?_, ?_⟩
  · simp [atspiBase, ht, textOf]
  · simp [atspiBase, atspiAttrs, atspiDict0]
  · intro p hp
    simp only [Element.attrs_withChildren, atspiBase, Element.attrs_mk] at hp
    rw [atspiAttrs, hi, hsel, hv, ha] at hp
    simp only [imageAttrs, selectionAttrs, valueAttrs, actionAttrs,
      Bool.false_eq_true, if_false, List.append_nil] at hp
    rcases List.mem_append.mp hp with hp | hp
    · rcases mem_atspiDict0 hp with rfl | ⟨s2, hsm, rfl⟩ | ⟨q, hqm, rfl⟩
      · dsimp only
        exact ⟨by decide, by decide,
          fun l => Ne.symm (@clark_ne_plain uValNS l "name" (by decide)),
          fun l => Ne.symm (@clark_ne_plain uActNS l "name" (by decide))⟩
      · dsimp only
        exact ⟨@clark_ne_plain uStateNS s2 "image" (by decide),
          @clark_ne_plain uStateNS s2 "selection" (by decide),
          fun l => clark_ne_of_ns_ne noBrace_uStateNS noBrace_uValNS (by decide) _ _,
          fun l => clark_ne_of_ns_ne noBrace_uStateNS noBrace_uActNS (by decide) _ _⟩
      · dsimp only
        exact ⟨@clark_ne_plain uAttrNS q.1 "image" (by decide),
          @clark_ne_plain uAttrNS q.1 "selection" (by decide),
          fun l => clark_ne_of_ns_ne noBrace_uAttrNS noBrace_uValNS (by decide) _ _,
          fun l => clark_ne_of_ns_ne noBrace_uAttrNS noBrace_uActNS (by decide) _ _⟩
    · obtain ⟨l, hl⟩ := mem_componentAttrs_key hp
      rw [hl]
      exact ⟨@clark_ne_plain uCompNS l "image" (by decide),
        @clark_ne_plain uCompNS l "selection" (by decide),
        fun l2 => clark_ne_of_ns_ne noBrace_uCompNS noBrace_uValNS (by decide) _ _,
        fun l2 => clark_ne_of_ns_ne noBrace_uCompNS noBrace_uActNS (by decide) _ _⟩

/-- C9 witness: the bare push button with every optional interface absent
is emitted with empty body, its name attribute, and no optional-interface
attributes. -/
theorem C9_witness :
    ∃ e, createAtspiNode cfgD bareNode 0 none = .ok e ∧
      e.body = "" ∧ ("name", bareNode.desc.name) ∈ e.attrs ∧
      (∀ p ∈ e.attrs, p.1 ≠ "image" ∧ p.1 ≠ "selection" ∧
        (∀ l, p.1 ≠ clark uValNS l) ∧ (∀ l, p.1 ≠ clark uActNS l)) :=
  C9_confirmed cfgD bareNode 0 none rfl (by decide) (by decide) rfl rfl rfl rfl rfl

/-- C10: no traversal consults the MAX_CALLS constant: every capture
result, on both platforms and at the Linux entry point, is invariant
under replacing it by any value. -/
theorem C10_confirmed : ∀ (cfg : Config) (n : Nat) (fuel : Nat) (node : ANode)
    (depth : Nat) (flag : Option String) (desktop : ANode) (completed : List Nat)
    (wnode : WNode) (wdepth : Nat) (wflag : Option String) (wst : WSt),
    createAtspiNodeFuel { cfg with MAX_CALLS := n } fuel node depth flag =
      createAtspiNodeFuel cfg fuel node depth flag ∧
    getAccessibilityTree { cfg with MAX_CALLS := n } desktop completed =
      getAccessibilityTree cfg desktop completed ∧
    createPywinautoNodeFuel { cfg with MAX_CALLS := n } fuel wnode wdepth wflag wst =
      createPywinautoNodeFuel cfg fuel wnode wdepth wflag wst := by
  intro cfg n fuel node depth flag desktop completed wnode wdepth wflag wst
  have hfun : createAtspiNode { cfg with MAX_CALLS := n } = createAtspiNode cfg := by
    funext node2 depth2 flag2
    exact atspi_calls_invariant cfg n (cfg.MAX_DEPTH - depth2) node2 depth2 flag2
  refine ⟨atspi_calls_invariant cfg n fuel node depth flag, ?_,
    wpn_calls_invariant cfg n fuel wnode wdepth wflag wst⟩
  simp only [getAccessibilityTree, hfun]

end ScreenEnv
